import Mathlib

/-!
# ceph_osd_exporter: admin-socket discovery, protocol client and collector

A shallow embedding of `internal/ceph/admin_socket.go` and
`collector/fragmentation.go`.

Conventions of the embedding:

* a Go `string` is a sequence of bytes. A file name or a path is a Lean
  `String` with one character per byte: the character with code `b`, below
  256, stands for the byte `b`. An ASCII name is written as it reads, and the
  name `ceph-osd.\xff.asok`, which is not valid UTF-8, is the string
  `"ceph-osd.\xff.asok"`; a name with the letter e acute, two bytes in
  UTF-8, is written with the two characters `\xc3\xa9`. Splitting, the prefix
  and suffix tests and joining compare single bytes with ASCII characters. A
  character from 256 on stands for no byte and is in no name of a real tree;
* the strings of a command (`Prefix`, `Format`) are text: their bytes are
  their UTF-8 encoding;
* a Go `[]byte` is a `List Nat` whose elements are below 256;
* a Go function that returns `(T, error)` returns both results, the error
  as an `Option GoError` (`none` is the nil error);
* a run-time panic is an explicit `Panic` value;
* library code that the repository calls (`afero.Walk`, `encoding/json`,
  `encoding/binary`, `prometheus.MustNewConstMetric`) is modelled after the
  library.
-/

set_option autoImplicit false

namespace CephOsdExporter

/-! ## Errors and panics -/

/-- Go `error` values that the exporter can see. -/
inductive GoError where
  /-- an error reported by the operating system, the network or the filesystem -/
  | errno (msg : String)
  /-- a `*json.SyntaxError`: the bytes are not a JSON text -/
  | jsonSyntax
  /-- a `*json.UnmarshalTypeError` with its `Value` field -/
  | jsonUnmarshalType (value : String)
  /-- the error built by `fmt.Errorf` with one `%w` verb: message and wrapped error -/
  | wrapped (msg : String) (err : GoError)
deriving DecidableEq, Repr

/-- The `Error()` method: the message of an error. -/
def GoError.Error : GoError → String
  | .errno msg => msg
  | .jsonSyntax => "invalid JSON"
  | .jsonUnmarshalType value =>
    "json: cannot unmarshal " ++ value ++ " into Go value of type map[string]interface {}"
  | .wrapped msg _ => msg

/-- The `Unwrap()` method: the error wrapped by `%w`, if any. -/
def GoError.Unwrap : GoError → Option GoError
  | .wrapped _ err => some err
  | _ => none

/-- The call `fmt.Errorf(pfx + "%w", err)`. -/
def fmt_Errorf_w (pfx : String) (err : GoError) : GoError :=
  .wrapped (pfx ++ err.Error) err

/-- Run-time panics. -/
inductive Panic where
  /-- index out of range: the index and the length of the slice -/
  | indexOutOfRange (index : Int) (len : Nat)
  /-- a method call on a nil interface value -/
  | nilDereference
  /-- the panic of `prometheus.MustNewConstMetric` on a label value that is not
  valid UTF-8 -/
  | invalidLabelValue (value : String)
deriving DecidableEq, Repr

/-! ## The `strings` package -/

/-- Splitting a character list at every occurrence of `sep`: the segments
between the separators, in order; a list without separator is one segment. -/
def splitChars (sep : Char) : List Char → List (List Char)
  | [] => [[]]
  | c :: cs =>
    if c = sep then [] :: splitChars sep cs
    else
      match splitChars sep cs with
      | [] => [[c]]
      | seg :: segs => (c :: seg) :: segs

namespace strings

/-- Go `strings.Split(s, sep)` for a separator of one character. -/
def Split (s : String) (sep : Char) : List String :=
  (splitChars sep s.data).map String.mk

/-- Go `strings.HasPrefix`. -/
def HasPrefix (s pfx : String) : Bool :=
  pfx.data.isPrefixOf s.data

/-- Go `strings.HasSuffix`. -/
def HasSuffix (s sfx : String) : Bool :=
  sfx.data.isSuffixOf s.data

end strings

/-! ## `AdminSocket` and `Osd` -/

/-- The struct `AdminSocketCommand`. -/
structure AdminSocketCommand where
  Prefix : String
  Format : String
deriving DecidableEq, Repr

/-- The struct `AdminSocket`. -/
structure AdminSocket where
  Path : String
deriving DecidableEq, Repr

/-- The method `Osd`: `parts := strings.Split(as.Path, "."); return parts[len(parts)-2]`.
Indexing outside the slice panics. -/
def AdminSocket.Osd (as : AdminSocket) : Except Panic String :=
  let parts := strings.Split as.Path '.'
  let i : Int := (parts.length : Int) - 2
  if i < 0 then .error (.indexOutOfRange i parts.length)
  else
    match parts.get? i.toNat with
    | some part => .ok part
    | none => .error (.indexOutOfRange i parts.length)

/-- The base name of a path, as Go `filepath.Base` computes it on Unix: the
last element of the path after trailing slashes are removed; `.` for the
empty path and `/` for a path of slashes only. -/
def baseName (path : String) : String :=
  if path.data = [] then "."
  else
    let stripped := (path.data.reverse.dropWhile (· = '/')).reverse
    let last := (stripped.reverse.takeWhile (· ≠ '/')).reverse
    if last = [] then "/" else String.mk last

/-! ## The filesystem that `afero.Walk` traverses -/

/-- The kinds of entry that are not directories. -/
inductive FileType where
  | regular | symlink | socket | other
deriving DecidableEq, Repr

/-- What is found at a path: an entry whose `Lstat` fails, an entry that is
not a directory, or a directory with the error of reading its names (if any)
and its entries by name, in the order `readDirNames` returns them. -/
inductive Node where
  | lstatErr (err : GoError)
  | file (type : FileType)
  | dir (readErr : Option GoError) (children : List (String × Node))

/-- The part of `fs.FileInfo` that matters: `Name()`, `IsDir()` and
`Mode().IsRegular()`. -/
structure FileInfo where
  Name : String
  IsDir : Bool
  IsRegular : Bool
deriving DecidableEq, Repr

/-- The `FileInfo` that `Lstat` returns for a node met under `name`. -/
def Node.info (name : String) : Node → Option FileInfo
  | .lstatErr _ => none
  | .file t => some ⟨name, false, decide (t = .regular)⟩
  | .dir _ _ => some ⟨name, true, false⟩

/-- What a `filepath.WalkFunc` returns: `nil`, the sentinel `filepath.SkipDir`,
another error, or a panic that unwinds the walk. Errors of the filesystem are
never the sentinel. -/
inductive WalkResult where
  | nil
  | skipDir
  | err (e : GoError)
  | panic (p : Panic)
deriving DecidableEq, Repr

/-- A `filepath.WalkFunc` that updates a state of type `σ`:
`func(path string, info fs.FileInfo, err error) error`. -/
abbrev WalkFunc (σ : Type) := String → Option FileInfo → Option GoError → σ → WalkResult × σ

/-- The call `filepath.Join(dir, name)` for a clean `dir` and the name of a
directory entry (not empty, no slash, neither `.` nor `..`). -/
def filepath_Join (dir name : String) : String := dir ++ "/" ++ name

mutual
/-- The function `walk(fs, path, info, walkFn)` of afero: call `walkFn` on the
entry, then on every entry below it. It is called only after `Lstat`
succeeded, so the first case is never reached. -/
def walk {σ : Type} (walkFn : WalkFunc σ) (path name : String) : Node → σ → WalkResult × σ
  | .lstatErr _, st => (.nil, st)
  | .file t, st => walkFn path (some ⟨name, false, decide (t = .regular)⟩) none st
  | .dir readErr children, st =>
    match walkFn path (some ⟨name, true, false⟩) none st with
    | (.nil, st1) =>
      match readErr with
      | some err => walkFn path (some ⟨name, true, false⟩) (some err) st1
      | none => walkNames walkFn path children st1
    | (.skipDir, st1) => (.nil, st1)
    | (r, st1) => (r, st1)
/-- The loop of `walk` over the names of a directory. -/
def walkNames {σ : Type} (walkFn : WalkFunc σ) (path : String) :
    List (String × Node) → σ → WalkResult × σ
  | [], st => (.nil, st)
  | (name, .lstatErr err) :: rest, st =>
    match walkFn (filepath_Join path name) none (some err) st with
    | (.nil, st1) => walkNames walkFn path rest st1
    | (.skipDir, st1) => walkNames walkFn path rest st1
    | (r, st1) => (r, st1)
  | (name, .file t) :: rest, st =>
    match walk walkFn (filepath_Join path name) name (.file t) st with
    | (.nil, st1) => walkNames walkFn path rest st1
    | (r, st1) => (r, st1)
  | (name, .dir readErr children) :: rest, st =>
    match walk walkFn (filepath_Join path name) name (.dir readErr children) st with
    | (.nil, st1) => walkNames walkFn path rest st1
    | (.skipDir, st1) => walkNames walkFn path rest st1
    | (r, st1) => (r, st1)
end

/-- The function `afero.Walk(fs, root, walkFn)`; `filesystem` is what is found
at `root`. -/
def afero_Walk {σ : Type} (filesystem : Node) (root : String) (walkFn : WalkFunc σ) (st : σ) :
    WalkResult × σ :=
  match filesystem with
  | .lstatErr err => walkFn root none (some err) st
  | node => walk walkFn root (baseName root) node st

/-- The error value `filepath.SkipDir`. -/
def filepath_SkipDir : GoError := .errno "skip this directory"

/-! ## `GetAllAdminSockets` -/

/-- The test of line 78 on `info.Name()`. -/
def isSocketName (name : String) : Bool :=
  strings.HasPrefix name "ceph-osd." && strings.HasSuffix name ".asok"

/-- The closure that `GetAllAdminSockets` passes to `afero.Walk`; the state is
the slice `sockets`. -/
def scanFn : WalkFunc (List AdminSocket) := fun path info err sockets =>
  match err with
  | some e => (.err e, sockets)
  | none =>
    match info with
    | none => (.panic .nilDereference, sockets)
    | some info =>
      if strings.HasPrefix info.Name "ceph-osd." && strings.HasSuffix info.Name ".asok" then
        (.nil, sockets ++ [⟨path⟩])
      else (.nil, sockets)

/-- The function `GetAllAdminSockets`; `filesystem` is what is found at
`/var/run/ceph`. It returns the pair `(sockets, err)`. -/
def GetAllAdminSockets (filesystem : Node) : Except Panic (List AdminSocket × Option GoError) :=
  match afero_Walk filesystem "/var/run/ceph" scanFn [] with
  | (.nil, sockets) => .ok (sockets, none)
  | (.skipDir, _) =>
    .ok ([], some (fmt_Errorf_w "failed to scan admin sockets: " filepath_SkipDir))
  | (.err e, _) => .ok ([], some (fmt_Errorf_w "failed to scan admin sockets: " e))
  | (.panic p, _) => .error p

/-! ## Describing a tree -/

mutual
/-- The entries of a tree that `Lstat` can read, with their paths, in the
order of the walk. The entries of a directory that cannot be read are unknown. -/
def Node.entries (path name : String) : Node → List (String × FileInfo)
  | .lstatErr _ => []
  | .file t => [(path, ⟨name, false, decide (t = .regular)⟩)]
  | .dir (some _) _ => [(path, ⟨name, true, false⟩)]
  | .dir none children => (path, ⟨name, true, false⟩) :: entriesOfNames path children
/-- The entries below a directory. -/
def entriesOfNames (path : String) : List (String × Node) → List (String × FileInfo)
  | [] => []
  | (name, node) :: rest =>
    node.entries (filepath_Join path name) name ++ entriesOfNames path rest
end

mutual
/-- The traversal errors of a tree, in the order of the walk. -/
def Node.errors : Node → List GoError
  | .lstatErr err => [err]
  | .file _ => []
  | .dir (some err) _ => [err]
  | .dir none children => errorsOfNames children
/-- The traversal errors below a directory. -/
def errorsOfNames : List (String × Node) → List GoError
  | [] => []
  | (_, node) :: rest => node.errors ++ errorsOfNames rest
end

/-- A name that a directory can hold. -/
def validName (name : String) : Bool :=
  name ≠ "" && name ≠ "." && name ≠ ".." && !('/' ∈ name.data)

mutual
/-- A tree is well formed when every directory holds valid names, each of
them once. -/
def Node.WellFormed : Node → Bool
  | .lstatErr _ => true
  | .file _ => true
  | .dir _ children => decide (children.map Prod.fst).Nodup && wellFormedNames children
/-- Every entry of the list has a valid name and is well formed. -/
def wellFormedNames : List (String × Node) → Bool
  | [] => true
  | (name, node) :: rest => validName name && node.WellFormed && wellFormedNames rest
end

/-- The sockets among the entries of a tree: the paths of the entries whose
name passes the test. -/
def socketsOf (entries : List (String × FileInfo)) : List AdminSocket :=
  (entries.filter (fun e => isSocketName e.2.Name)).map (fun e => ⟨e.1⟩)

/-- The path `q` is `base` or lies below it: `base`, or `base/...`. -/
def PathBelow (base q : List Char) : Prop :=
  q = base ∨ ∃ r, q = base ++ '/' :: r

/-! ## The scanner of `encoding/json`

`json.Unmarshal` first runs `checkValid`, a state machine that reads the
input byte by byte (`scanner.go`). A byte is a `Nat` below 256; the byte
values are written as numbers, with the character in a comment. -/

/-- The step function that the scanner will run on the next byte
(the field `step`). -/
inductive Step where
  | beginValueOrEmpty | beginValue | beginStringOrEmpty | beginString
  | endValue | endTop
  | inString | inStringEsc | inStringEscU | inStringEscU1 | inStringEscU12 | inStringEscU123
  | neg | one | zero | dot | dot0 | e | eSign | e0
  | t | tr | tru | f | fa | fal | fals | n | nu | nul
  | error
deriving DecidableEq, Repr

/-- The entries of the stack `parseState`. -/
inductive ParseState where
  | objectKey | objectValue | arrayValue
deriving DecidableEq, Repr

/-- The codes that a step function returns. -/
inductive ScanCode where
  | scanContinue | scanBeginLiteral | scanBeginObject | scanObjectKey | scanObjectValue
  | scanEndObject | scanBeginArray | scanArrayValue | scanEndArray | scanSkipSpace
  | scanEnd | scanError
deriving DecidableEq, Repr

/-- The struct `scanner`: `err` tells whether the field `err` is set; the top
of the stack `parseState` is the head of the list. -/
structure Scanner where
  step : Step
  endTop : Bool
  parseState : List ParseState
  err : Bool
deriving DecidableEq, Repr

/-- The constant `maxNestingDepth`. -/
def maxNestingDepth : Nat := 10000

/-- The method `reset`. -/
def Scanner.reset : Scanner := ⟨.beginValue, false, [], false⟩

/-- The method `error`: record a syntax error. -/
def Scanner.error (s : Scanner) : Scanner × ScanCode :=
  ({ s with step := .error, err := true }, .scanError)

/-- The method `pushParseState`; `s` already holds the next step. -/
def Scanner.pushParseState (s : Scanner) (newParseState : ParseState)
    (successState : ScanCode) : Scanner × ScanCode :=
  let s1 := { s with parseState := newParseState :: s.parseState }
  if s1.parseState.length ≤ maxNestingDepth then (s1, successState) else s1.error

/-- The method `popParseState`. -/
def Scanner.popParseState (s : Scanner) : Scanner :=
  let rest := s.parseState.tail
  if rest.length = 0 then { s with parseState := rest, step := .endTop, endTop := true }
  else { s with parseState := rest, step := .endValue }

/-- The function `isSpace`: space, tab, carriage return, line feed. -/
def isSpace (c : Nat) : Bool := c = 32 || c = 9 || c = 13 || c = 10

/-- A decimal digit `0` to `9`. -/
def isDigitByte (c : Nat) : Bool := 48 ≤ c && c ≤ 57

/-- A hexadecimal digit `0-9`, `a-f`, `A-F`. -/
def isHexByte (c : Nat) : Bool :=
  (48 ≤ c && c ≤ 57) || (97 ≤ c && c ≤ 102) || (65 ≤ c && c ≤ 70)

/-- The step `stateEndTop`: a byte that is not a space after the top-level
value records an error, reported on the next call. -/
def stateEndTop (s : Scanner) (c : Nat) : Scanner × ScanCode :=
  if !isSpace c then ((s.error).1, .scanEnd) else (s, .scanEnd)

/-- The step `stateEndValue`. -/
def stateEndValue (s : Scanner) (c : Nat) : Scanner × ScanCode :=
  match s.parseState with
  | [] => stateEndTop { s with step := .endTop, endTop := true } c
  | ps :: rest =>
    if isSpace c then ({ s with step := .endValue }, .scanSkipSpace)
    else
      match ps with
      | .objectKey =>
        if c = 58 /- : -/ then
          ({ s with parseState := .objectValue :: rest, step := .beginValue }, .scanObjectKey)
        else s.error
      | .objectValue =>
        if c = 44 /- , -/ then
          ({ s with parseState := .objectKey :: rest, step := .beginString }, .scanObjectValue)
        else if c = 125 /- } -/ then (s.popParseState, .scanEndObject)
        else s.error
      | .arrayValue =>
        if c = 44 /- , -/ then ({ s with step := .beginValue }, .scanArrayValue)
        else if c = 93 /- ] -/ then (s.popParseState, .scanEndArray)
        else s.error

/-- The step `stateBeginValue`. -/
def stateBeginValue (s : Scanner) (c : Nat) : Scanner × ScanCode :=
  if isSpace c then (s, .scanSkipSpace)
  else if c = 123 /- { -/ then
    Scanner.pushParseState { s with step := .beginStringOrEmpty } .objectKey .scanBeginObject
  else if c = 91 /- [ -/ then
    Scanner.pushParseState { s with step := .beginValueOrEmpty } .arrayValue .scanBeginArray
  else if c = 34 /- " -/ then ({ s with step := .inString }, .scanBeginLiteral)
  else if c = 45 /- - -/ then ({ s with step := .neg }, .scanBeginLiteral)
  else if c = 48 /- 0 -/ then ({ s with step := .zero }, .scanBeginLiteral)
  else if c = 116 /- t -/ then ({ s with step := .t }, .scanBeginLiteral)
  else if c = 102 /- f -/ then ({ s with step := .f }, .scanBeginLiteral)
  else if c = 110 /- n -/ then ({ s with step := .n }, .scanBeginLiteral)
  else if 49 ≤ c ∧ c ≤ 57 then ({ s with step := .one }, .scanBeginLiteral)
  else s.error

/-- The step `stateBeginString`. -/
def stateBeginString (s : Scanner) (c : Nat) : Scanner × ScanCode :=
  if isSpace c then (s, .scanSkipSpace)
  else if c = 34 /- " -/ then ({ s with step := .inString }, .scanBeginLiteral)
  else s.error

/-- The step `stateBeginStringOrEmpty`. The scanner enters it only after it
pushed `parseObjectKey`, so the stack has a top to replace. -/
def stateBeginStringOrEmpty (s : Scanner) (c : Nat) : Scanner × ScanCode :=
  if isSpace c then (s, .scanSkipSpace)
  else if c = 125 /- } -/ then
    stateEndValue { s with parseState := .objectValue :: s.parseState.tail } c
  else stateBeginString s c

/-- The step `stateBeginValueOrEmpty`. -/
def stateBeginValueOrEmpty (s : Scanner) (c : Nat) : Scanner × ScanCode :=
  if isSpace c then (s, .scanSkipSpace)
  else if c = 93 /- ] -/ then stateEndValue s c
  else stateBeginValue s c

/-- The step `stateInString`. -/
def stateInString (s : Scanner) (c : Nat) : Scanner × ScanCode :=
  if c = 34 /- " -/ then ({ s with step := .endValue }, .scanContinue)
  else if c = 92 /- \ -/ then ({ s with step := .inStringEsc }, .scanContinue)
  else if c < 32 then s.error
  else (s, .scanContinue)

/-- The step `stateInStringEsc`: after a backslash, one of `b f n r t \ / "`
or `u`. -/
def stateInStringEsc (s : Scanner) (c : Nat) : Scanner × ScanCode :=
  if c = 98 ∨ c = 102 ∨ c = 110 ∨ c = 114 ∨ c = 116 ∨ c = 92 ∨ c = 47 ∨ c = 34 then
    ({ s with step := .inString }, .scanContinue)
  else if c = 117 /- u -/ then ({ s with step := .inStringEscU }, .scanContinue)
  else s.error

/-- The steps `stateInStringEscU` to `stateInStringEscU123`: a hexadecimal
digit leads to `next`. -/
def stateHex (next : Step) (s : Scanner) (c : Nat) : Scanner × ScanCode :=
  if isHexByte c then ({ s with step := next }, .scanContinue) else s.error

/-- The step `stateNeg`. -/
def stateNeg (s : Scanner) (c : Nat) : Scanner × ScanCode :=
  if c = 48 /- 0 -/ then ({ s with step := .zero }, .scanContinue)
  else if 49 ≤ c ∧ c ≤ 57 then ({ s with step := .one }, .scanContinue)
  else s.error

/-- The step `state0`. -/
def state0 (s : Scanner) (c : Nat) : Scanner × ScanCode :=
  if c = 46 /- . -/ then ({ s with step := .dot }, .scanContinue)
  else if c = 101 ∨ c = 69 /- e E -/ then ({ s with step := .e }, .scanContinue)
  else stateEndValue s c

/-- The step `state1`. -/
def state1 (s : Scanner) (c : Nat) : Scanner × ScanCode :=
  if isDigitByte c then ({ s with step := .one }, .scanContinue) else state0 s c

/-- The step `stateDot`. -/
def stateDot (s : Scanner) (c : Nat) : Scanner × ScanCode :=
  if isDigitByte c then ({ s with step := .dot0 }, .scanContinue) else s.error

/-- The step `stateDot0`. -/
def stateDot0 (s : Scanner) (c : Nat) : Scanner × ScanCode :=
  if isDigitByte c then (s, .scanContinue)
  else if c = 101 ∨ c = 69 /- e E -/ then ({ s with step := .e }, .scanContinue)
  else stateEndValue s c

/-- The step `stateESign`. -/
def stateESign (s : Scanner) (c : Nat) : Scanner × ScanCode :=
  if isDigitByte c then ({ s with step := .e0 }, .scanContinue) else s.error

/-- The step `stateE`. -/
def stateE (s : Scanner) (c : Nat) : Scanner × ScanCode :=
  if c = 43 ∨ c = 45 /- + - -/ then ({ s with step := .eSign }, .scanContinue)
  else stateESign s c

/-- The step `stateE0`. -/
def stateE0 (s : Scanner) (c : Nat) : Scanner × ScanCode :=
  if isDigitByte c then (s, .scanContinue) else stateEndValue s c

/-- The steps inside `true`, `false` and `null` (`stateT` to `stateNul`):
the byte `want` leads to `next`. -/
def stateLetter (want : Nat) (next : Step) (s : Scanner) (c : Nat) : Scanner × ScanCode :=
  if c = want then ({ s with step := next }, .scanContinue) else s.error

/-- The call `s.step(s, c)`: run the current step function on a byte. -/
def Scanner.run (s : Scanner) (c : Nat) : Scanner × ScanCode :=
  match s.step with
  | .beginValueOrEmpty => stateBeginValueOrEmpty s c
  | .beginValue => stateBeginValue s c
  | .beginStringOrEmpty => stateBeginStringOrEmpty s c
  | .beginString => stateBeginString s c
  | .endValue => stateEndValue s c
  | .endTop => stateEndTop s c
  | .inString => stateInString s c
  | .inStringEsc => stateInStringEsc s c
  | .inStringEscU => stateHex .inStringEscU1 s c
  | .inStringEscU1 => stateHex .inStringEscU12 s c
  | .inStringEscU12 => stateHex .inStringEscU123 s c
  | .inStringEscU123 => stateHex .inString s c
  | .neg => stateNeg s c
  | .one => state1 s c
  | .zero => state0 s c
  | .dot => stateDot s c
  | .dot0 => stateDot0 s c
  | .e => stateE s c
  | .eSign => stateESign s c
  | .e0 => stateE0 s c
  | .t => stateLetter 114 /- r -/ .tr s c
  | .tr => stateLetter 117 /- u -/ .tru s c
  | .tru => stateLetter 101 /- e -/ .endValue s c
  | .f => stateLetter 97 /- a -/ .fa s c
  | .fa => stateLetter 108 /- l -/ .fal s c
  | .fal => stateLetter 115 /- s -/ .fals s c
  | .fals => stateLetter 101 /- e -/ .endValue s c
  | .n => stateLetter 117 /- u -/ .nu s c
  | .nu => stateLetter 108 /- l -/ .nul s c
  | .nul => stateLetter 108 /- l -/ .endValue s c
  | .error => (s, .scanError)

/-- The method `eof`: the code at the end of the input. -/
def Scanner.eof (s : Scanner) : ScanCode :=
  if s.err then .scanError
  else if s.endTop then .scanEnd
  else if (s.run 32).1.endTop then .scanEnd
  else .scanError

/-- The loop of `checkValid`: the scanner after the last byte, or `none` when
a step returned `scanError`. -/
def checkValidLoop (s : Scanner) : List Nat → Option Scanner
  | [] => some s
  | c :: cs =>
    match s.run c with
    | (_, .scanError) => none
    | (s1, _) => checkValidLoop s1 cs

/-- The function `checkValid` started in the state `s`: the loop, then `eof`. -/
def validFrom (s : Scanner) (data : List Nat) : Bool :=
  match checkValidLoop s data with
  | none => false
  | some s1 => decide (s1.eof ≠ .scanError)

/-- The function `checkValid`: whether the bytes are a JSON text. -/
def checkValid (data : List Nat) : Bool :=
  validFrom Scanner.reset data

/-- The bytes of a string made of ASCII characters. -/
def ascii (s : String) : List Nat := s.data.map Char.toNat

/-! ## `json.Marshal` of a command -/

/-- The UTF-8 bytes of a character. -/
def utf8EncodeChar (c : Char) : List Nat :=
  let n := c.toNat
  if n < 128 then [n]
  else if n < 2048 then [192 + n / 64, 128 + n % 64]
  else if n < 65536 then [224 + n / 4096, 128 + n / 64 % 64, 128 + n % 64]
  else [240 + n / 262144, 128 + n / 4096 % 64, 128 + n / 64 % 64, 128 + n % 64]

/-- The bytes of a text: its UTF-8 encoding. -/
def utf8 (s : String) : List Nat := (s.data.map utf8EncodeChar).flatten

/-- The table `hex`: the digit of `0123456789abcdef` at position `n`. -/
def hexDigit (n : Nat) : Nat := if n < 10 then 48 + n else 87 + n

/-- The table `htmlSafeSet`: the ASCII bytes that are written unchanged, that
is 0x20 to 0x7f without `"`, `&`, `<`, `>` and the backslash. -/
def htmlSafeSet (b : Nat) : Bool :=
  32 ≤ b && b < 128 && b ≠ 34 && b ≠ 38 && b ≠ 60 && b ≠ 62 && b ≠ 92

/-- What `appendString` (with `escapeHTML`) writes for one character. The
short escapes of backspace and form feed are those of Go 1.22; earlier
releases wrote them as `\u0008` and `\u000c`. -/
def appendStringChar (c : Char) : List Nat :=
  let b := c.toNat
  if b < 128 then
    if htmlSafeSet b then [b]
    else if b = 92 ∨ b = 34 then [92, b]
    else if b = 8 then [92, 98]
    else if b = 12 then [92, 102]
    else if b = 10 then [92, 110]
    else if b = 13 then [92, 114]
    else if b = 9 then [92, 116]
    else [92, 117, 48, 48, hexDigit (b / 16), hexDigit (b % 16)]
  else if b = 8232 ∨ b = 8233 then [92, 117, 50, 48, 50, hexDigit (b % 16)]
  else utf8EncodeChar c

/-- The function `appendString` of `encoding/json`: a string as a JSON string
literal. -/
def appendString (s : String) : List Nat :=
  [34] ++ (s.data.map appendStringChar).flatten ++ [34]

/-- The call `json.Marshal(command)` for an `AdminSocketCommand`: the field
`prefix`, and the field `format` unless it is empty (`omitempty`). It never
fails for a struct of strings. -/
def json_Marshal (command : AdminSocketCommand) : Except GoError (List Nat) :=
  .ok (ascii "\x7b\"prefix\":" ++ appendString command.Prefix ++
    (if command.Format = "" then [] else ascii ",\"format\":" ++ appendString command.Format) ++
    ascii "\x7d")

/-! ## `json.Unmarshal` into a `map[string]interface{}` -/

/-- A `float64`, by its 64 bits. -/
structure Float64 where
  bits : Nat
deriving DecidableEq, Repr

/-- The values that `json.Unmarshal` stores in an `interface{}`. -/
inductive GoValue where
  | nil
  | bool (b : Bool)
  | float64 (f : Float64)
  | string (s : String)
  | slice (elems : List GoValue)
  | map (entries : List (String × GoValue))

/-- A `map[string]interface{}`: `none` is the nil map. -/
abbrev GoMap := Option (List (String × GoValue))

/-- The index expression `m[key]`: the value, or the nil interface when the
key is absent or the map is nil. -/
def GoMap.index (m : GoMap) (key : String) : GoValue :=
  match m with
  | none => .nil
  | some entries => (entries.lookup key).getD .nil

/-- The kind of the top-level value of a JSON text. -/
inductive JsonKind where
  | object | array | string | number | bool | null
deriving DecidableEq, Repr

/-- The kind of the top-level value of a valid JSON text, read from its first
byte that is not a space, as `decodeState.value` and `literalStore` do. -/
def topLevelKind (data : List Nat) : JsonKind :=
  match data.dropWhile isSpace with
  | 123 :: _ => .object
  | 91 :: _ => .array
  | 34 :: _ => .string
  | 110 :: _ => .null
  | 116 :: _ => .bool
  | 102 :: _ => .bool
  | _ => .number

/-- The decoder of a JSON object into a fresh map (`decodeState.object`): it
fails when a number of the object does not fit a `float64`. It belongs to the
library and is a parameter of the model. -/
abbrev ObjectDecoder := List Nat → Except GoError (List (String × GoValue))

/-- The call `json.Unmarshal(data, &responseMap)` on a nil `responseMap`: the
map afterwards and the error. A text that is not valid is a syntax error; a
top-level `null` sets the map to nil without error; an array, a string, a
number or a boolean cannot be stored in a map and gives an
`UnmarshalTypeError`. -/
def json_Unmarshal (decodeObject : ObjectDecoder) (data : List Nat) : GoMap × Option GoError :=
  if checkValid data then
    match topLevelKind data with
    | .object =>
      match decodeObject data with
      | .ok entries => (some entries, none)
      | .error err => (none, some err)
    | .null => (none, none)
    | .array => (none, some (.jsonUnmarshalType "array"))
    | .string => (none, some (.jsonUnmarshalType "string"))
    | .number => (none, some (.jsonUnmarshalType "number"))
    | .bool => (none, some (.jsonUnmarshalType "bool"))
  else (none, some .jsonSyntax)

/-! ## The connection -/

/-- The result of one `conn.Read`: the bytes delivered and the error. -/
structure ReadResult where
  data : List Nat
  err : Option GoError
deriving DecidableEq, Repr

/-- What the network does during one call of `SendCommand`: the error of
`net.Dial` on a path, the error of `conn.Write` on the bytes written, and the
result of the `k`-th `conn.Read` into a buffer of a given length. -/
structure Peer where
  dial : String → Option GoError
  write : List Nat → Option GoError
  read : Nat → Nat → ReadResult

/-- The buffer after a read: the bytes delivered, then the rest of the buffer
unchanged (a Unix connection reads with the `read` system call, which writes
only the bytes it delivers); a read delivers no more than the buffer holds. -/
def fillBuffer (buf data : List Nat) : List Nat :=
  data.take buf.length ++ buf.drop (data.take buf.length).length

/-- The call `binary.BigEndian.Uint32(b)` on a buffer of four bytes:
`uint32(b[3]) | uint32(b[2])<<8 | uint32(b[1])<<16 | uint32(b[0])<<24`. -/
def binary_BigEndian_Uint32 (b : List Nat) : Nat :=
  (b.getD 3 0 ||| b.getD 2 0 <<< 8 ||| b.getD 1 0 <<< 16 ||| b.getD 0 0 <<< 24) % 2 ^ 32

/-- The call `binary.BigEndian.PutUint32(b, v)`: the four bytes written. -/
def binary_BigEndian_PutUint32 (v : Nat) : List Nat :=
  [v >>> 24 % 256, v >>> 16 % 256, v >>> 8 % 256, v % 256]

/-! ## `SendCommand` -/

/-- What a call of `SendCommand` returns, `(response, err)`, and the bytes it
passed to `conn.Write`, one list per call. -/
structure SendResult where
  response : GoMap
  err : Option GoError
  written : List (List Nat)

/-- The method `SendCommand`. -/
def AdminSocket.SendCommand (decodeObject : ObjectDecoder) (as : AdminSocket)
    (command : AdminSocketCommand) (peer : Peer) : SendResult :=
  match peer.dial as.Path with
  | some err => ⟨none, some err, []⟩
  | none =>
    match json_Marshal command with
    | .error err => ⟨none, some err, []⟩
    | .ok commandBytes =>
      match peer.write (commandBytes ++ [0]) with
      | some err => ⟨none, some err, [commandBytes ++ [0]]⟩
      | none =>
        let lenBuf := fillBuffer (List.replicate 4 0) (peer.read 0 4).data
        match (peer.read 0 4).err with
        | some err => ⟨none, some err, [commandBytes ++ [0]]⟩
        | none =>
          let length := binary_BigEndian_Uint32 lenBuf
          let response := fillBuffer (List.replicate length 0) (peer.read 1 length).data
          match (peer.read 1 length).err with
          | some err => ⟨none, some err, [commandBytes ++ [0]]⟩
          | none =>
            match json_Unmarshal decodeObject response with
            | (_, some err) => ⟨none, some err, [commandBytes ++ [0]]⟩
            | (responseMap, none) => ⟨responseMap, none, [commandBytes ++ [0]]⟩

/-! ## `FragmentationCollector.Collect` -/

/-- A sample sent on the channel: the value of the gauge
`ceph_osd_fragmentation_rating` and the value of its label `osd`. -/
structure Metric where
  value : Float64
  osd : String
deriving DecidableEq, Repr

/-- The state of a scrape: the samples sent on `ch` so far, the messages
logged, and the panic that ended it, if any. -/
structure CollectState where
  ch : List Metric
  log : List String
  panic : Option Panic
deriving DecidableEq, Repr

/-- The bytes of a name or path: one byte per character, the character with
code `b` standing for the byte `b`. -/
def bytesOf (s : String) : List Nat := s.data.map Char.toNat

/-- The loop of `utf8.ValidString`. With `none` the next byte starts a
character: an ASCII byte, or a lead byte of the table `first` (0xC2 to 0xF4),
which fixes the range of the second byte (the table `acceptRanges`) and the
number of bytes to follow. With `some (lo, hi, more)` the next byte must lie
in `lo..hi` and `more` continuation bytes (0x80 to 0xBF) follow it. The input
is valid when it ends where a character may start. -/
def utf8ValidFrom : Option (Nat × Nat × Nat) → List Nat → Bool
  | none, [] => true
  | some _, [] => false
  | none, b :: rest =>
    if b < 128 then utf8ValidFrom none rest
    else if 194 ≤ b ∧ b ≤ 223 then utf8ValidFrom (some (128, 191, 0)) rest
    else if b = 224 then utf8ValidFrom (some (160, 191, 1)) rest
    else if 225 ≤ b ∧ b ≤ 236 then utf8ValidFrom (some (128, 191, 1)) rest
    else if b = 237 then utf8ValidFrom (some (128, 159, 1)) rest
    else if 238 ≤ b ∧ b ≤ 239 then utf8ValidFrom (some (128, 191, 1)) rest
    else if b = 240 then utf8ValidFrom (some (144, 191, 2)) rest
    else if 241 ≤ b ∧ b ≤ 243 then utf8ValidFrom (some (128, 191, 2)) rest
    else if b = 244 then utf8ValidFrom (some (128, 143, 2)) rest
    else false
  | some (lo, hi, more), b :: rest =>
    if lo ≤ b ∧ b ≤ hi then
      if more = 0 then utf8ValidFrom none rest
      else utf8ValidFrom (some (128, 191, more - 1)) rest
    else false

/-- Go `utf8.ValidString` on a label value. -/
def utf8_ValidString (s : String) : Bool := utf8ValidFrom none (bytesOf s)

/-- The call `prometheus.MustNewConstMetric(c.rating, prometheus.GaugeValue,
value, label)`. `NewConstMetric` fails when the descriptor is broken, when the
number of label values differs from the number of labels, or when a label
value is not valid UTF-8; the descriptor of the collector is sound and has the
one label `osd`, so only the last can happen, and `MustNewConstMetric` then
panics. -/
def prometheus_MustNewConstMetric (value : Float64) (label : String) : Except Panic Metric :=
  if utf8_ValidString label then .ok ⟨value, label⟩ else .error (.invalidLabelValue label)

/-- The loop of `Collect` over the sockets; the `k`-th call of `SendCommand`
talks to `net k`. A panic ends the scrape: the samples already sent stay
sent, the sockets that remain are not queried. -/
def collectSockets (decodeObject : ObjectDecoder) (net : Nat → Peer) :
    Nat → List AdminSocket → CollectState → CollectState
  | _, [], st => st
  | k, socket :: rest, st =>
    let r := socket.SendCommand decodeObject ⟨"bluestore allocator score block", ""⟩ (net k)
    match r.err with
    | some _ =>
      collectSockets decodeObject net (k + 1) rest
        { st with log := st.log ++ ["failed to get osd fragmentation status"] }
    | none =>
      match r.response.index "fragmentation_rating" with
      | .float64 rating =>
        match socket.Osd with
        | .ok osd =>
          match prometheus_MustNewConstMetric rating osd with
          | .ok metric =>
            collectSockets decodeObject net (k + 1) rest { st with ch := st.ch ++ [metric] }
          | .error p => { st with panic := some p }
        | .error p => { st with panic := some p }
      | _ =>
        collectSockets decodeObject net (k + 1) rest
          { st with log := st.log ++ ["failed to parse fragmentation rating"] }

/-- The method `Collect`; `filesystem` is what is found at `/var/run/ceph`. -/
def Collect (filesystem : Node) (decodeObject : ObjectDecoder) (net : Nat → Peer) :
    CollectState :=
  match GetAllAdminSockets filesystem with
  | .error p => ⟨[], [], some p⟩
  | .ok (_, some _) => ⟨[], ["failed to get admin sockets"], none⟩
  | .ok (sockets, none) => collectSockets decodeObject net 0 sockets ⟨[], [], none⟩

/-- The rating that a result of `SendCommand` yields: the value under
`fragmentation_rating` when the call succeeded and the value is a `float64`. -/
def ratingOf (r : SendResult) : Option Float64 :=
  match r.err with
  | some _ => none
  | none =>
    match r.response.index "fragmentation_rating" with
    | .float64 rating => some rating
    | _ => none

/-- The sample that the claim expects from the `k`-th socket: when its call
yields a rating, that rating with what `Osd` returns for the socket. -/
def sampleOf (decodeObject : ObjectDecoder) (net : Nat → Peer) (ks : Nat × AdminSocket) :
    Option (Float64 × Except Panic String) :=
  (ratingOf (ks.2.SendCommand decodeObject ⟨"bluestore allocator score block", ""⟩
    (net ks.1))).map fun rating => (rating, ks.2.Osd)

/-- The samples that the claim expects from a scrape, in the order of
discovery; the first socket of the list is the `k`-th of the scrape. -/
def expectedSamples (decodeObject : ObjectDecoder) (net : Nat → Peer) (k : Nat)
    (sockets : List AdminSocket) : List (Float64 × Except Panic String) :=
  (sockets.enumFrom k).filterMap (sampleOf decodeObject net)

/-- A sample as the pair of its value and its label. -/
def Metric.toPair (m : Metric) : Float64 × Except Panic String := (m.value, .ok m.osd)

/-! ## Sample peers -/

/-- The response of the test suite. -/
def testBody : List Nat := utf8 "\x7b\"fragmentation_rating\":0.6228889132001627\x7d"

/-- The `float64` nearest to 0.6228889132001627. -/
def testRating : Float64 := ⟨4603785704100039348⟩

/-- An object decoder that knows the response of the test suite. -/
def testDecoder : ObjectDecoder := fun data =>
  if data = testBody then .ok [("fragmentation_rating", .float64 testRating)]
  else .error (.jsonUnmarshalType "number")

/-- A daemon that accepts the connection and replies with the length of
`body` and then `body`. -/
def replyingPeer (body : List Nat) : Peer where
  dial := fun _ => none
  write := fun _ => none
  read := fun k _ =>
    if k = 0 then ⟨binary_BigEndian_PutUint32 body.length, none⟩ else ⟨body, none⟩

/-- A daemon that announces `announced` bytes and delivers `body`. -/
def shortPeer (announced : Nat) (body : List Nat) : Peer where
  dial := fun _ => none
  write := fun _ => none
  read := fun k _ =>
    if k = 0 then ⟨binary_BigEndian_PutUint32 announced, none⟩ else ⟨body, none⟩

/-- A socket that nobody listens on. -/
def deadPeer : Peer where
  dial := fun _ => some (.errno "connect: connection refused")
  write := fun _ => none
  read := fun _ _ => ⟨[], none⟩

/-- A scrape in which nobody listens on the first socket and the second
daemon replies with the response of the test suite. -/
def sampleNet : Nat → Peer := fun k => if k = 0 then deadPeer else replyingPeer testBody

/-- A scrape in which every daemon replies with the response of the test
suite. -/
def replyingNet : Nat → Peer := fun _ => replyingPeer testBody

/-! ## Sample trees -/

/-- A flat socket, a socket below a cluster directory and a file that is not
a socket; the sockets are Unix sockets, as the daemons create them. -/
def sampleTree : Node :=
  .dir none
    [("1d3e4c7b-6b3b-4b3b-8b3b-3b3b3b3b3b3b", .dir none [("ceph-osd.42.asok", .file .socket)]),
     ("ceph-osd.1.asok", .file .socket),
     ("ceph.conf", .file .regular)]

/-- A socket followed by an entry that cannot be read. -/
def unreadableTree : Node :=
  .dir none
    [("ceph-osd.1.asok", .file .socket),
     ("lost+found", .lstatErr (.errno "lstat /var/run/ceph/lost+found: permission denied"))]

/-- Three sockets, in the order of the walk; the identifier of the second is
the single byte 0xFF, which is not valid UTF-8. -/
def invalidLabelTree : Node :=
  .dir none
    [("1d3e4c7b-6b3b-4b3b-8b3b-3b3b3b3b3b3b", .dir none [("ceph-osd.42.asok", .file .socket)]),
     ("ceph-osd.\xff.asok", .file .socket),
     ("fsid", .dir none [("ceph-osd.7.asok", .file .socket)])]

/-- A directory with the name of a socket. -/
def directoryTree : Node :=
  .dir none [("ceph-osd.1.asok", .dir none [])]

/-! ## Facts about splitting -/

theorem splitChars_ne_nil (sep : Char) (s : List Char) : splitChars sep s ≠ [] := by
  cases s with
  | nil => simp [splitChars]
  | cons c cs =>
    unfold splitChars
    split_ifs
    · simp
    · split <;> simp

theorem splitChars_of_not_mem (sep : Char) (s : List Char) (h : sep ∉ s) :
    splitChars sep s = [s] := by
  induction s with
  | nil => rfl
  | cons c cs ih =>
    have hc : c ≠ sep := fun e => h (by simp [e])
    have hcs : sep ∉ cs := fun m => h (List.mem_cons_of_mem _ m)
    simp [splitChars, hc, ih hcs]

theorem splitChars_append_sep (sep : Char) (a b : List Char) :
    splitChars sep (a ++ sep :: b) = splitChars sep a ++ splitChars sep b := by
  induction a with
  | nil => simp [splitChars]
  | cons c cs ih =>
    by_cases hc : c = sep
    · simp [splitChars, hc, ih]
    · cases hs : splitChars sep cs with
      | nil => exact absurd hs (splitChars_ne_nil sep cs)
      | cons seg segs =>
        rw [List.cons_append, splitChars, if_neg hc, ih, hs, splitChars, if_neg hc, hs]
        rfl

theorem splitChars_length_pos (sep : Char) (s : List Char) :
    0 < (splitChars sep s).length :=
  List.length_pos.mpr (splitChars_ne_nil sep s)

theorem splitChars_length_of_mem (sep : Char) (s : List Char) (h : sep ∈ s) :
    2 ≤ (splitChars sep s).length := by
  obtain ⟨a, b, rfl⟩ := List.append_of_mem h
  rw [splitChars_append_sep, List.length_append]
  have := splitChars_length_pos sep a
  have := splitChars_length_pos sep b
  omega

/-- The segments of `pre.id.asok` end with `id` and `asok` when `id` has no dot. -/
theorem splitChars_dotted (pre id : List Char) (h : '.' ∉ id) :
    splitChars '.' (pre ++ '.' :: (id ++ '.' :: ['a', 's', 'o', 'k'])) =
      splitChars '.' pre ++ [id, ['a', 's', 'o', 'k']] := by
  rw [splitChars_append_sep, splitChars_append_sep, splitChars_of_not_mem _ id h,
    splitChars_of_not_mem _ ['a', 's', 'o', 'k'] (by decide)]
  rfl

theorem osd_of_dotted (pre id : List Char) (h : '.' ∉ id) :
    AdminSocket.Osd ⟨String.mk (pre ++ '.' :: (id ++ '.' :: ['a', 's', 'o', 'k']))⟩ =
      .ok (String.mk id) := by
  have hpos := splitChars_length_pos '.' pre
  simp only [AdminSocket.Osd, strings.Split, splitChars_dotted pre id h, List.map_append,
    List.length_append, List.length_map, List.map_cons, List.map_nil, List.length_cons,
    List.length_nil]
  have hi : ¬ (((((splitChars '.' pre).length + (0 + 1 + 1) : Nat) : Int) - 2) < 0) := by
    omega
  rw [if_neg hi]
  have ht : ((((splitChars '.' pre).length + (0 + 1 + 1) : Nat) : Int) - 2).toNat =
      (List.map String.mk (splitChars '.' pre)).length := by
    simp
  rw [ht, List.get?_eq_getElem?, List.getElem?_append_right (le_refl _)]
  simp

theorem split_reverse_of_dotted (pre id : List Char) (h : '.' ∉ id) :
    (strings.Split (String.mk (pre ++ '.' :: (id ++ '.' :: ['a', 's', 'o', 'k']))) '.').reverse.get? 1 =
      some (String.mk id) := by
  simp [strings.Split, splitChars_dotted pre id h]

/-! ## The walk of `GetAllAdminSockets` -/

theorem socketsOf_append (a b : List (String × FileInfo)) :
    socketsOf (a ++ b) = socketsOf a ++ socketsOf b := by
  simp [socketsOf]

theorem scanFn_info (path : String) (info : FileInfo) (st : List AdminSocket) :
    scanFn path (some info) none st = (.nil, st ++ socketsOf [(path, info)]) := by
  unfold scanFn socketsOf isSocketName
  by_cases h : (strings.HasPrefix info.Name "ceph-osd." && strings.HasSuffix info.Name ".asok") = true
  · simp [h]
  · simp [h]

theorem scanFn_err (path : String) (info : Option FileInfo) (e : GoError)
    (st : List AdminSocket) : scanFn path info (some e) st = (.err e, st) := rfl

mutual
/-- Walking a tree without traversal error appends its sockets. -/
theorem walk_scanFn_ok (path name : String) :
    (node : Node) → (st : List AdminSocket) → node.errors = [] →
      walk scanFn path name node st = (.nil, st ++ socketsOf (node.entries path name))
  | .lstatErr _, _, h => by simp [Node.errors] at h
  | .file t, st, _ => by
    rw [walk, scanFn_info, Node.entries]
  | .dir (some _) _, _, h => by simp [Node.errors] at h
  | .dir none children, st, h => by
    rw [Node.errors] at h
    rw [walk, scanFn_info]
    simp only []
    rw [walkNames_scanFn_ok path children _ h, Node.entries]
    rw [show ((path, (⟨name, true, false⟩ : FileInfo)) :: entriesOfNames path children)
      = [(path, (⟨name, true, false⟩ : FileInfo))] ++ entriesOfNames path children from rfl,
      socketsOf_append, List.append_assoc]
theorem walkNames_scanFn_ok (path : String) :
    (children : List (String × Node)) → (st : List AdminSocket) → errorsOfNames children = [] →
      walkNames scanFn path children st = (.nil, st ++ socketsOf (entriesOfNames path children))
  | [], st, _ => by simp [walkNames, entriesOfNames, socketsOf]
  | (name, .lstatErr _) :: rest, _, h => by simp [errorsOfNames, Node.errors] at h
  | (name, .file t) :: rest, st, h => by
    have hr : errorsOfNames rest = [] := by
      simpa [errorsOfNames, Node.errors] using h
    rw [walkNames, walk_scanFn_ok (filepath_Join path name) name (.file t) st rfl]
    simp only []
    rw [walkNames_scanFn_ok path rest _ hr, entriesOfNames, socketsOf_append,
      List.append_assoc]
  | (name, .dir readErr cs) :: rest, st, h => by
    rw [errorsOfNames, List.append_eq_nil] at h
    rw [walkNames, walk_scanFn_ok (filepath_Join path name) name (.dir readErr cs) st h.1]
    simp only []
    rw [walkNames_scanFn_ok path rest _ h.2, entriesOfNames, socketsOf_append,
      List.append_assoc]
end

theorem head?_append_of_head? {α : Type} (a b : List α) (x : α) (h : a.head? = some x) :
    (a ++ b).head? = some x := by
  cases a with
  | nil => simp at h
  | cons y ys => simpa using h

mutual
/-- Walking a tree stops with the first traversal error. -/
theorem walk_scanFn_err (path name : String) (e : GoError) :
    (node : Node) → (st : List AdminSocket) → (∀ err, node ≠ .lstatErr err) →
      node.errors.head? = some e → (walk scanFn path name node st).1 = .err e
  | .lstatErr err, _, hn, _ => absurd rfl (hn err)
  | .file t, _, _, h => by simp [Node.errors] at h
  | .dir (some err) _, st, _, h => by
    have he : err = e := by simpa [Node.errors] using h
    rw [walk, scanFn_info]
    simp only []
    rw [scanFn_err, he]
  | .dir none children, st, _, h => by
    rw [Node.errors] at h
    rw [walk, scanFn_info]
    simp only []
    exact walkNames_scanFn_err path e children _ h
theorem walkNames_scanFn_err (path : String) (e : GoError) :
    (children : List (String × Node)) → (st : List AdminSocket) →
      (errorsOfNames children).head? = some e → (walkNames scanFn path children st).1 = .err e
  | [], _, h => by simp [errorsOfNames] at h
  | (name, .lstatErr err) :: rest, st, h => by
    have he : err = e := by simpa [errorsOfNames, Node.errors] using h
    rw [walkNames, scanFn_err, he]
  | (name, .file t) :: rest, st, h => by
    have hr : (errorsOfNames rest).head? = some e := by
      simpa [errorsOfNames, Node.errors] using h
    rw [walkNames, walk_scanFn_ok (filepath_Join path name) name (.file t) st rfl]
    simp only []
    exact walkNames_scanFn_err path e rest _ hr
  | (name, .dir readErr cs) :: rest, st, h => by
    rw [errorsOfNames] at h
    cases hd : (Node.dir readErr cs).errors with
    | nil =>
      rw [hd, List.nil_append] at h
      rw [walkNames, walk_scanFn_ok (filepath_Join path name) name (.dir readErr cs) st hd]
      simp only []
      exact walkNames_scanFn_err path e rest _ h
    | cons x xs =>
      have hx : x = e := by simpa [hd] using h
      have hw := walk_scanFn_err (filepath_Join path name) name e (.dir readErr cs) st
        (fun err => by simp) (by simp [hd, hx])
      rw [walkNames]
      cases hres : walk scanFn (filepath_Join path name) name (.dir readErr cs) st with
      | mk r st1 =>
        rw [hres] at hw
        simp only [] at hw
        subst hw
        rfl
end

/-- The result of `GetAllAdminSockets` on a tree without traversal error. -/
theorem getAll_ok (fs : Node) (h : fs.errors = []) :
    GetAllAdminSockets fs =
      .ok (socketsOf (fs.entries "/var/run/ceph" (baseName "/var/run/ceph")), none) := by
  cases fs with
  | lstatErr err => simp [Node.errors] at h
  | file t =>
    simp only [GetAllAdminSockets, afero_Walk]
    rw [walk_scanFn_ok _ _ _ _ h]
    simp
  | dir readErr children =>
    simp only [GetAllAdminSockets, afero_Walk]
    rw [walk_scanFn_ok _ _ _ _ h]
    simp

/-- The result of `GetAllAdminSockets` on a tree with a traversal error. -/
theorem getAll_err (fs : Node) (e : GoError) (h : fs.errors.head? = some e) :
    GetAllAdminSockets fs =
      .ok ([], some (fmt_Errorf_w "failed to scan admin sockets: " e)) := by
  cases fs with
  | lstatErr err =>
    have he : err = e := by simpa [Node.errors] using h
    simp [GetAllAdminSockets, afero_Walk, scanFn_err, he]
  | file t => simp [Node.errors] at h
  | dir readErr children =>
    have hw := walk_scanFn_err "/var/run/ceph" (baseName "/var/run/ceph") e
      (.dir readErr children) [] (fun err => by simp) h
    simp only [GetAllAdminSockets, afero_Walk]
    cases hres : walk scanFn "/var/run/ceph" (baseName "/var/run/ceph")
        (.dir readErr children) [] with
    | mk r st1 =>
      rw [hres] at hw
      simp only [] at hw
      subst hw
      rfl

/-! ## Paths and names -/

theorem osd_of_data (s id : String) (pre : List Char)
    (hs : s.data = pre ++ '.' :: (id.data ++ '.' :: ['a', 's', 'o', 'k']))
    (h : '.' ∉ id.data) : AdminSocket.Osd ⟨s⟩ = .ok id := by
  have e : s = String.mk (pre ++ '.' :: (id.data ++ '.' :: ['a', 's', 'o', 'k'])) :=
    String.ext hs
  rw [e, osd_of_dotted pre id.data h]

theorem split_reverse_of_data (s id : String) (pre : List Char)
    (hs : s.data = pre ++ '.' :: (id.data ++ '.' :: ['a', 's', 'o', 'k']))
    (h : '.' ∉ id.data) : (strings.Split s '.').reverse.get? 1 = some id := by
  have e : s = String.mk (pre ++ '.' :: (id.data ++ '.' :: ['a', 's', 'o', 'k'])) :=
    String.ext hs
  rw [e, split_reverse_of_dotted pre id.data h]

theorem not_dot_of_digits (id : String) (hdig : ∀ c ∈ id.data, c.isDigit = true) :
    '.' ∉ id.data := fun hm => by
  have := hdig '.' hm
  revert this
  decide

theorem osd_of_mem_dot (path : String) (h : '.' ∈ path.data) :
    2 ≤ (strings.Split path '.').length ∧ ∃ id, AdminSocket.Osd ⟨path⟩ = .ok id := by
  have hlen : 2 ≤ (strings.Split path '.').length := by
    simpa [strings.Split] using splitChars_length_of_mem '.' path.data h
  refine ⟨hlen, ?_⟩
  unfold AdminSocket.Osd
  simp only []
  have hi : ¬ ((((strings.Split path '.').length : Int) - 2) < 0) := by omega
  rw [if_neg hi]
  have hlt : (((strings.Split path '.').length : Int) - 2).toNat <
      (strings.Split path '.').length := by omega
  rw [List.get?_eq_getElem?, List.getElem?_eq_getElem hlt]
  exact ⟨_, rfl⟩

theorem osd_of_not_mem_dot (path : String) (h : '.' ∉ path.data) :
    strings.Split path '.' = [path] ∧
      AdminSocket.Osd ⟨path⟩ = .error (.indexOutOfRange (-1) 1) := by
  have hs : strings.Split path '.' = [path] := by
    simp [strings.Split, splitChars_of_not_mem '.' path.data h]
  refine ⟨hs, ?_⟩
  unfold AdminSocket.Osd
  simp only [hs]
  rfl

theorem dot_mem_of_isSocketName (name : String) (h : strings.HasPrefix name "ceph-osd." = true) :
    '.' ∈ name.data := by
  have hp : "ceph-osd.".data <+: name.data := by
    simpa [strings.HasPrefix] using h
  exact hp.subset (by decide)

theorem baseName_subset (path : String) (c : Char) (hc : c ∈ (baseName path).data)
    (hne : baseName path ≠ "." ∧ baseName path ≠ "/") : c ∈ path.data := by
  unfold baseName at hc hne
  simp only [] at hc hne
  split_ifs at hc hne with h1 h2
  · exact absurd rfl hne.1
  · exact absurd rfl hne.2
  · have h3 : c ∈ (path.data.reverse.dropWhile (· = '/')).reverse.reverse.takeWhile (· ≠ '/') := by
      simpa using hc
    have h4 := (List.takeWhile_prefix (· ≠ '/')).subset h3
    rw [List.reverse_reverse] at h4
    have h5 := (List.dropWhile_suffix (· = '/')).subset h4
    simpa using h5

theorem filepath_Join_data (d n : String) :
    (filepath_Join d n).data = d.data ++ '/' :: n.data := by
  simp [filepath_Join, String.data_append]

theorem validName_iff (n : String) :
    validName n = true ↔ n ≠ "" ∧ n ≠ "." ∧ n ≠ ".." ∧ '/' ∉ n.data := by
  simp [validName, and_assoc]

theorem takeWhile_segment (n t : List Char) (hn : '/' ∉ n) (ht : t = [] ∨ ∃ r, t = '/' :: r) :
    (n ++ t).takeWhile (· ≠ '/') = n := by
  induction n with
  | nil =>
    rcases ht with rfl | ⟨r, rfl⟩ <;> simp
  | cons c cs ih =>
    have hc : c ≠ '/' := fun e => hn (by simp [e])
    have hcs : '/' ∉ cs := fun m => hn (List.mem_cons_of_mem _ m)
    have ih2 := ih hcs
    rw [List.cons_append, List.takeWhile_cons, if_pos (by simpa using hc), ih2]

theorem pathBelow_segment (p n1 n2 q : List Char) (h1 : '/' ∉ n1) (h2 : '/' ∉ n2)
    (b1 : PathBelow (p ++ '/' :: n1) q) (b2 : PathBelow (p ++ '/' :: n2) q) : n1 = n2 := by
  have e1 : ∃ t, q = p ++ '/' :: (n1 ++ t) ∧ (t = [] ∨ ∃ r, t = '/' :: r) := by
    rcases b1 with rfl | ⟨r, rfl⟩
    · exact ⟨[], by simp, Or.inl rfl⟩
    · exact ⟨'/' :: r, by simp, Or.inr ⟨r, rfl⟩⟩
  have e2 : ∃ t, q = p ++ '/' :: (n2 ++ t) ∧ (t = [] ∨ ∃ r, t = '/' :: r) := by
    rcases b2 with rfl | ⟨r, rfl⟩
    · exact ⟨[], by simp, Or.inl rfl⟩
    · exact ⟨'/' :: r, by simp, Or.inr ⟨r, rfl⟩⟩
  obtain ⟨t1, hq1, ht1⟩ := e1
  obtain ⟨t2, hq2, ht2⟩ := e2
  have heq : n1 ++ t1 = n2 ++ t2 := by
    have := hq1.symm.trans hq2
    simpa using this
  have := congrArg (List.takeWhile (· ≠ '/')) heq
  rwa [takeWhile_segment n1 t1 h1 ht1, takeWhile_segment n2 t2 h2 ht2] at this

theorem pathBelow_trans (p n q : List Char) (h : PathBelow (p ++ '/' :: n) q) :
    ∃ r, q = p ++ '/' :: r := by
  rcases h with rfl | ⟨r, rfl⟩
  · exact ⟨n, rfl⟩
  · exact ⟨n ++ '/' :: r, by simp⟩

mutual
/-- Every entry of a tree lies at or below the path of its root. -/
theorem entries_below (path name : String) :
    (node : Node) → (e : String × FileInfo) → e ∈ node.entries path name →
      PathBelow path.data e.1.data
  | .lstatErr _, e, he => by simp [Node.entries] at he
  | .file t, e, he => by
    have : e = (path, ⟨name, false, decide (t = .regular)⟩) := by simpa [Node.entries] using he
    exact Or.inl (by rw [this])
  | .dir (some _) _, e, he => by
    have : e = (path, ⟨name, true, false⟩) := by simpa [Node.entries] using he
    exact Or.inl (by rw [this])
  | .dir none children, e, he => by
    rw [Node.entries, List.mem_cons] at he
    rcases he with rfl | he
    · exact Or.inl rfl
    · obtain ⟨n, _, hb⟩ := entriesOfNames_below path children e he
      exact Or.inr (pathBelow_trans _ _ _ hb)
theorem entriesOfNames_below (path : String) :
    (children : List (String × Node)) → (e : String × FileInfo) →
      e ∈ entriesOfNames path children →
      ∃ n ∈ children.map Prod.fst, PathBelow (path.data ++ '/' :: n.data) e.1.data
  | [], e, he => by simp [entriesOfNames] at he
  | (name, node) :: rest, e, he => by
    rw [entriesOfNames, List.mem_append] at he
    rcases he with he | he
    · have hb := entries_below (filepath_Join path name) name node e he
      rw [filepath_Join_data] at hb
      exact ⟨name, by simp, hb⟩
    · obtain ⟨n, hn, hb⟩ := entriesOfNames_below path rest e he
      exact ⟨n, by simp [hn], hb⟩
end

theorem wellFormedNames_valid :
    (children : List (String × Node)) → wellFormedNames children = true →
      ∀ n ∈ children.map Prod.fst, validName n = true
  | [], _, n, hn => by simp at hn
  | (name, node) :: rest, h, n, hn => by
    rw [wellFormedNames, Bool.and_eq_true, Bool.and_eq_true] at h
    rw [List.map_cons, List.mem_cons] at hn
    rcases hn with rfl | hn
    · exact h.1.1
    · exact wellFormedNames_valid rest h.2 n hn

theorem not_pathBelow_self (p r : List Char) : p ≠ p ++ '/' :: r := fun h => by
  have := congrArg List.length h
  simp at this

mutual
/-- In a well-formed tree no two entries have the same path. -/
theorem entries_nodup (path name : String) :
    (node : Node) → node.WellFormed = true → ((node.entries path name).map Prod.fst).Nodup
  | .lstatErr _, _ => by simp [Node.entries]
  | .file t, _ => by simp [Node.entries]
  | .dir (some _) _, _ => by simp [Node.entries]
  | .dir none children, h => by
    rw [Node.WellFormed, Bool.and_eq_true, decide_eq_true_eq] at h
    rw [Node.entries, List.map_cons, List.nodup_cons]
    refine ⟨?_, entriesOfNames_nodup path children h.1 h.2⟩
    intro hm
    obtain ⟨e, he, hp⟩ := List.mem_map.mp hm
    obtain ⟨n, _, hb⟩ := entriesOfNames_below path children e he
    obtain ⟨r, hr⟩ := pathBelow_trans _ _ _ hb
    rw [hp] at hr
    exact not_pathBelow_self _ _ hr
theorem entriesOfNames_nodup (path : String) :
    (children : List (String × Node)) → (children.map Prod.fst).Nodup →
      wellFormedNames children = true → ((entriesOfNames path children).map Prod.fst).Nodup
  | [], _, _ => by simp [entriesOfNames]
  | (name, node) :: rest, hnd, h => by
    have hvalid := wellFormedNames_valid _ h
    rw [wellFormedNames, Bool.and_eq_true, Bool.and_eq_true] at h
    rw [List.map_cons, List.nodup_cons] at hnd
    rw [entriesOfNames, List.map_append, List.nodup_append]
    refine ⟨entries_nodup _ name node h.1.2, entriesOfNames_nodup path rest hnd.2 h.2, ?_⟩
    intro q hq1 hq2
    obtain ⟨e1, he1, hp1⟩ := List.mem_map.mp hq1
    obtain ⟨e2, he2, hp2⟩ := List.mem_map.mp hq2
    have hb1 := entries_below (filepath_Join path name) name node e1 he1
    rw [filepath_Join_data, hp1] at hb1
    obtain ⟨n, hn, hb2⟩ := entriesOfNames_below path rest e2 he2
    rw [hp2] at hb2
    have v1 := (validName_iff name).mp (hvalid name (by simp))
    have v2 := (validName_iff n).mp (hvalid n (by simp [hn]))
    have hdata := pathBelow_segment _ _ _ _ v1.2.2.2 v2.2.2.2 hb1 hb2
    have : name = n := String.ext hdata
    rw [this] at hnd
    exact hnd.1 hn
end

mutual
/-- Every entry of a tree is the root, or has a path that ends with its name. -/
theorem entries_name (path name : String) :
    (node : Node) → (e : String × FileInfo) → e ∈ node.entries path name →
      (e.1 = path ∧ e.2.Name = name) ∨
        ∃ d, e.1 = filepath_Join d e.2.Name ∧
          (node.WellFormed = true → validName e.2.Name = true)
  | .lstatErr _, e, he => by simp [Node.entries] at he
  | .file t, e, he => by
    have : e = (path, ⟨name, false, decide (t = .regular)⟩) := by simpa [Node.entries] using he
    exact Or.inl (by rw [this]; exact ⟨rfl, rfl⟩)
  | .dir (some _) _, e, he => by
    have : e = (path, ⟨name, true, false⟩) := by simpa [Node.entries] using he
    exact Or.inl (by rw [this]; exact ⟨rfl, rfl⟩)
  | .dir none children, e, he => by
    rw [Node.entries, List.mem_cons] at he
    rcases he with rfl | he
    · exact Or.inl ⟨rfl, rfl⟩
    · obtain ⟨d, hd, hv⟩ := entriesOfNames_name path children e he
      refine Or.inr ⟨d, hd, fun hwf => hv ?_⟩
      rw [Node.WellFormed, Bool.and_eq_true] at hwf
      exact hwf.2
theorem entriesOfNames_name (path : String) :
    (children : List (String × Node)) → (e : String × FileInfo) →
      e ∈ entriesOfNames path children →
      ∃ d, e.1 = filepath_Join d e.2.Name ∧
        (wellFormedNames children = true → validName e.2.Name = true)
  | [], e, he => by simp [entriesOfNames] at he
  | (name, node) :: rest, e, he => by
    rw [entriesOfNames, List.mem_append] at he
    rw [wellFormedNames, Bool.and_eq_true, Bool.and_eq_true]
    rcases he with he | he
    · rcases entries_name (filepath_Join path name) name node e he with ⟨h1, h2⟩ | ⟨d, hd, hv⟩
      · exact ⟨path, by rw [h1, h2], fun hwf => by rw [h2]; exact hwf.1.1⟩
      · exact ⟨d, hd, fun hwf => hv hwf.1.2⟩
    · obtain ⟨d, hd, hv⟩ := entriesOfNames_name path rest e he
      exact ⟨d, hd, fun hwf => hv hwf.2⟩
end

theorem baseName_join (d n : String) (h : validName n = true) :
    baseName (filepath_Join d n) = n := by
  obtain ⟨hne, _, _, hs⟩ := (validName_iff n).mp h
  have hdata : n.data ≠ [] := fun e => hne (String.ext e)
  have hrev : n.data.reverse ≠ [] := by simpa using hdata
  have hsr : ∀ a ∈ n.data.reverse, (a ≠ '/') := fun a ha e =>
    hs (by rw [← e]; exact List.mem_reverse.mp ha)
  unfold baseName
  rw [filepath_Join_data]
  have h1 : ¬ (d.data ++ '/' :: n.data = []) := by simp
  rw [if_neg h1]
  simp only []
  have hrv : (d.data ++ '/' :: n.data).reverse = n.data.reverse ++ '/' :: d.data.reverse := by
    simp
  have hdrop : (n.data.reverse ++ '/' :: d.data.reverse).dropWhile (· = '/') =
      n.data.reverse ++ '/' :: d.data.reverse := by
    cases hn : n.data.reverse with
    | nil => exact absurd hn hrev
    | cons a as =>
      have ha : a ≠ '/' := hsr a (by rw [hn]; simp)
      rw [List.cons_append, List.dropWhile_cons_of_neg (by simpa using ha)]
  have htake : (n.data.reverse ++ '/' :: d.data.reverse).takeWhile (· ≠ '/') =
      n.data.reverse := by
    have := takeWhile_segment n.data.reverse ('/' :: d.data.reverse)
      (fun m => hs (List.mem_reverse.mp m)) (Or.inr ⟨_, rfl⟩)
    exact this
  rw [hrv, hdrop, List.reverse_reverse, htake, List.reverse_reverse, if_neg hdata]

/-! ## Discovery: results -/

theorem mem_socketsOf (entries : List (String × FileInfo)) (s : AdminSocket) :
    s ∈ socketsOf entries ↔ ∃ e ∈ entries, isSocketName e.2.Name = true ∧ s = ⟨e.1⟩ := by
  simp only [socketsOf, List.mem_map, List.mem_filter]
  constructor
  · rintro ⟨e, ⟨he, hn⟩, rfl⟩
    exact ⟨e, he, hn, rfl⟩
  · rintro ⟨e, he, hn, rfl⟩
    exact ⟨e, ⟨he, hn⟩, rfl⟩

/-- The two outcomes of `GetAllAdminSockets`. -/
theorem getAll_cases (fs : Node) (sockets : List AdminSocket) (err : Option GoError)
    (h : GetAllAdminSockets fs = .ok (sockets, err)) :
    (fs.errors = [] ∧ err = none ∧
        sockets = socketsOf (fs.entries "/var/run/ceph" (baseName "/var/run/ceph"))) ∨
      (∃ e, fs.errors.head? = some e ∧ sockets = [] ∧
        err = some (fmt_Errorf_w "failed to scan admin sockets: " e)) := by
  cases he : fs.errors with
  | nil =>
    rw [getAll_ok fs he] at h
    injection h with h
    injection h with h1 h2
    exact Or.inl ⟨rfl, h2.symm, h1.symm⟩
  | cons x xs =>
    rw [getAll_err fs x (by simp [he])] at h
    injection h with h
    injection h with h1 h2
    exact Or.inr ⟨x, rfl, h1.symm, h2.symm⟩

theorem baseName_root : baseName "/var/run/ceph" = "ceph" := by decide

/-- Every discovered path holds a dot. -/
theorem discovered_dot (fs : Node) (sockets : List AdminSocket) (err : Option GoError)
    (h : GetAllAdminSockets fs = .ok (sockets, err)) (s : AdminSocket) (hs : s ∈ sockets) :
    '.' ∈ s.Path.data := by
  rcases getAll_cases fs sockets err h with ⟨_, _, hsock⟩ | ⟨e, _, hsock, _⟩
  · rw [hsock, mem_socketsOf] at hs
    obtain ⟨e, he, hn, rfl⟩ := hs
    have hpre : strings.HasPrefix e.2.Name "ceph-osd." = true := by
      simp only [isSocketName, Bool.and_eq_true] at hn
      exact hn.1
    rcases entries_name _ _ fs e he with ⟨_, h2⟩ | ⟨d, hd, _⟩
    · rw [h2, baseName_root] at hpre
      exact absurd hpre (by decide)
    · have hdot := dot_mem_of_isSocketName _ hpre
      show '.' ∈ e.1.data
      rw [hd, filepath_Join_data]
      simp [hdot]
  · rw [hsock] at hs
    simp at hs

theorem entries_baseName (fs : Node) (hwf : fs.WellFormed = true) (e : String × FileInfo)
    (he : e ∈ fs.entries "/var/run/ceph" "ceph") : baseName e.1 = e.2.Name := by
  rcases entries_name _ _ fs e he with ⟨h1, h2⟩ | ⟨d, hd, hv⟩
  · rw [h1, h2, baseName_root]
  · rw [hd, baseName_join d _ (hv hwf)]

theorem socketsOf_nodup (entries : List (String × FileInfo))
    (h : (entries.map Prod.fst).Nodup) : (socketsOf entries).Nodup := by
  have hsub : ((entries.filter (fun e => isSocketName e.2.Name)).map Prod.fst).Nodup :=
    h.sublist ((List.filter_sublist _).map _)
  have hmap : socketsOf entries =
      ((entries.filter (fun e => isSocketName e.2.Name)).map Prod.fst).map AdminSocket.mk := by
    simp [socketsOf]
  rw [hmap]
  exact hsub.map (fun a b hab => by injection hab)

/-! ## The scanner and the zero byte -/

theorem stateEndTop_zero (s : Scanner) :
    (stateEndTop s 0).1.err = true ∧ (stateEndTop s 0).1.step = .error := by
  simp [stateEndTop, isSpace, Scanner.error]

theorem stateEndValue_zero (s : Scanner) :
    (stateEndValue s 0).2 = .scanError ∨
      ((stateEndValue s 0).1.err = true ∧ (stateEndValue s 0).1.step = .error) := by
  unfold stateEndValue
  cases hs : s.parseState with
  | nil => exact Or.inr (stateEndTop_zero _)
  | cons ps rest =>
    cases ps <;> simp [isSpace, Scanner.error]

/-- A zero byte makes every step fail: it returns `scanError`, or it records
the error and goes to the error state. -/
theorem run_zero (s : Scanner) :
    (s.run 0).2 = .scanError ∨ ((s.run 0).1.err = true ∧ (s.run 0).1.step = .error) := by
  unfold Scanner.run
  cases s.step
  case endValue => exact stateEndValue_zero s
  case endTop => exact Or.inr (stateEndTop_zero s)
  case one =>
    simp only [state1, state0, isDigitByte]
    simpa using stateEndValue_zero s
  case zero =>
    simp only [state0]
    simpa using stateEndValue_zero s
  case dot0 =>
    simp only [stateDot0, isDigitByte]
    simpa using stateEndValue_zero s
  case e0 =>
    simp only [stateE0, isDigitByte]
    simpa using stateEndValue_zero s
  all_goals
    simp [stateBeginValueOrEmpty, stateBeginValue, stateBeginStringOrEmpty, stateBeginString,
      stateInString, stateInStringEsc, stateHex, stateNeg, stateDot, stateE, stateESign,
      stateLetter, isSpace, isDigitByte, isHexByte, Scanner.error]

theorem validFrom_error (s : Scanner) (herr : s.err = true) (hstep : s.step = .error)
    (data : List Nat) : validFrom s data = false := by
  cases data with
  | nil => simp [validFrom, checkValidLoop, Scanner.eof, herr]
  | cons c cs => simp [validFrom, checkValidLoop, Scanner.run, hstep]

/-- No JSON text holds a zero byte. -/
theorem validFrom_zero (data : List Nat) (h : 0 ∈ data) :
    ∀ s : Scanner, validFrom s data = false := by
  induction data with
  | nil => simp at h
  | cons c cs ih =>
    intro s
    cases hr : s.run c with
    | mk s1 code =>
      by_cases hcode : code = .scanError
      · subst hcode
        simp [validFrom, checkValidLoop, hr]
      · have hstep : validFrom s (c :: cs) = validFrom s1 cs := by
          unfold validFrom
          rw [checkValidLoop, hr]
          cases code <;> first | rfl | exact absurd rfl hcode
        rw [hstep]
        rcases List.mem_cons.mp h with h0 | hcs
        · subst h0
          have hz := run_zero s
          rw [hr] at hz
          rcases hz with hz | ⟨h1, h2⟩
          · exact absurd hz hcode
          · exact validFrom_error s1 h1 h2 cs
        · exact ih hcs s1

theorem checkValid_zero (data : List Nat) (h : 0 ∈ data) : checkValid data = false :=
  validFrom_zero data h Scanner.reset

/-! ## Framing -/

theorem uint32_of_bytes (b0 b1 b2 b3 : Nat) (h0 : b0 < 256) (h1 : b1 < 256) (h2 : b2 < 256)
    (h3 : b3 < 256) :
    binary_BigEndian_Uint32 [b0, b1, b2, b3] =
      b0 * 2 ^ 24 + b1 * 2 ^ 16 + b2 * 2 ^ 8 + b3 := by
  have e1 : b3 ||| b2 <<< 8 = 2 ^ 8 * b2 + b3 := by
    rw [Nat.or_comm, Nat.shiftLeft_eq, Nat.mul_comm, ← Nat.mul_add_lt_is_or (by omega)]
  have e2 : (2 ^ 8 * b2 + b3) ||| b1 <<< 16 = 2 ^ 16 * b1 + (2 ^ 8 * b2 + b3) := by
    rw [Nat.or_comm, Nat.shiftLeft_eq, Nat.mul_comm, ← Nat.mul_add_lt_is_or (by omega)]
  have e3 : (2 ^ 16 * b1 + (2 ^ 8 * b2 + b3)) ||| b0 <<< 24 =
      2 ^ 24 * b0 + (2 ^ 16 * b1 + (2 ^ 8 * b2 + b3)) := by
    rw [Nat.or_comm, Nat.shiftLeft_eq, Nat.mul_comm, ← Nat.mul_add_lt_is_or (by omega)]
  simp only [binary_BigEndian_Uint32, List.getD_cons_succ, List.getD_cons_zero]
  rw [e1, e2, e3]
  omega

theorem uint32_putUint32 (n : Nat) (h : n < 2 ^ 32) :
    binary_BigEndian_Uint32 (binary_BigEndian_PutUint32 n) = n := by
  unfold binary_BigEndian_PutUint32
  rw [uint32_of_bytes _ _ _ _ (Nat.mod_lt _ (by decide)) (Nat.mod_lt _ (by decide))
    (Nat.mod_lt _ (by decide)) (Nat.mod_lt _ (by decide))]
  simp only [Nat.shiftRight_eq_div_pow]
  omega

theorem fillBuffer_full (data : List Nat) :
    fillBuffer (List.replicate data.length 0) data = data := by
  simp [fillBuffer]

theorem fillBuffer_header (n : Nat) :
    fillBuffer (List.replicate 4 0) (binary_BigEndian_PutUint32 n) =
      binary_BigEndian_PutUint32 n := by
  simp [fillBuffer, binary_BigEndian_PutUint32]

theorem fillBuffer_short (data : List Nat) (len : Nat) (h : data.length < len) :
    0 ∈ fillBuffer (List.replicate len 0) data := by
  have ht : data.take len = data := List.take_of_length_le (by omega)
  simp only [fillBuffer, List.length_replicate, ht, List.drop_replicate, List.mem_append,
    List.mem_replicate]
  exact Or.inr ⟨by omega, trivial⟩

/-- The result of `SendCommand` when the daemon replies with the length of
`body` and then all of `body`. -/
theorem sendCommand_of_reply (dec : ObjectDecoder) (as : AdminSocket)
    (command : AdminSocketCommand) (peer : Peer) (commandBytes body : List Nat)
    (hlen : body.length < 2 ^ 32)
    (hmarshal : json_Marshal command = .ok commandBytes)
    (hdial : peer.dial as.Path = none)
    (hwrite : peer.write (commandBytes ++ [0]) = none)
    (hheader : peer.read 0 4 = ⟨binary_BigEndian_PutUint32 body.length, none⟩)
    (hbody : peer.read 1 body.length = ⟨body, none⟩) :
    as.SendCommand dec command peer =
      match json_Unmarshal dec body with
      | (_, some err) => ⟨none, some err, [commandBytes ++ [0]]⟩
      | (responseMap, none) => ⟨responseMap, none, [commandBytes ++ [0]]⟩ := by
  unfold AdminSocket.SendCommand
  simp only [hdial, hmarshal, hwrite, hheader, fillBuffer_header,
    uint32_putUint32 body.length hlen, hbody, fillBuffer_full]

theorem json_Marshal_ok (command : AdminSocketCommand) :
    ∃ commandBytes, json_Marshal command = .ok commandBytes ∧
      commandBytes = ascii "\x7b\"prefix\":" ++ appendString command.Prefix ++
        (if command.Format = "" then []
          else ascii ",\"format\":" ++ appendString command.Format) ++ ascii "\x7d" :=
  ⟨_, rfl, rfl⟩

/-- Once the connection is open, `SendCommand` writes the command bytes and a
zero byte, in one call. -/
theorem sendCommand_written (dec : ObjectDecoder) (as : AdminSocket)
    (command : AdminSocketCommand) (peer : Peer) (commandBytes : List Nat)
    (hmarshal : json_Marshal command = .ok commandBytes)
    (hdial : peer.dial as.Path = none) :
    (as.SendCommand dec command peer).written = [commandBytes ++ [0]] := by
  unfold AdminSocket.SendCommand
  simp only [hdial, hmarshal]
  repeat' split
  all_goals rfl

theorem json_Unmarshal_zero (dec : ObjectDecoder) (data : List Nat) (h : 0 ∈ data) :
    json_Unmarshal dec data = (none, some .jsonSyntax) := by
  simp [json_Unmarshal, checkValid_zero data h]

theorem json_Unmarshal_object (dec : ObjectDecoder) (data : List Nat)
    (obj : List (String × GoValue)) (hvalid : checkValid data = true)
    (hkind : topLevelKind data = .object) (hdec : dec data = .ok obj) :
    json_Unmarshal dec data = (some obj, none) := by
  simp [json_Unmarshal, hvalid, hkind, hdec]

/-! ## The loop of `Collect` -/

theorem expectedSamples_cons (dec : ObjectDecoder) (net : Nat → Peer) (k : Nat)
    (s : AdminSocket) (rest : List AdminSocket) :
    expectedSamples dec net k (s :: rest) =
      (sampleOf dec net (k, s)).toList ++ expectedSamples dec net (k + 1) rest := by
  simp only [expectedSamples, List.enumFrom_cons, List.filterMap_cons]
  cases sampleOf dec net (k, s) <;> rfl

theorem ratingOf_eq_none (r : SendResult)
    (h : r.err ≠ none ∨ ∀ f, r.response.index "fragmentation_rating" ≠ .float64 f) :
    ratingOf r = none := by
  unfold ratingOf
  split
  · rfl
  · next he =>
    split
    · next f hf =>
      rcases h with h | h
      · exact absurd he h
      · exact absurd hf (h f)
    · rfl

/-- The loop sends, for sockets whose identifier `Osd` returns and is valid
UTF-8, exactly the expected samples, and it does not panic. -/
theorem collectSockets_spec (dec : ObjectDecoder) (net : Nat → Peer) :
    (sockets : List AdminSocket) → (k : Nat) → (st : CollectState) →
      (∀ s ∈ sockets, ∃ id, s.Osd = .ok id ∧ utf8_ValidString id = true) →
      (collectSockets dec net k sockets st).panic = st.panic ∧
      (collectSockets dec net k sockets st).ch.map Metric.toPair =
        st.ch.map Metric.toPair ++ expectedSamples dec net k sockets
  | [], k, st, _ => by simp [collectSockets, expectedSamples]
  | s :: rest, k, st, h => by
    obtain ⟨id, hid, hval⟩ := h s (by simp)
    have hrest : ∀ s' ∈ rest, ∃ id, s'.Osd = .ok id ∧ utf8_ValidString id = true :=
      fun s' hs' => h s' (List.mem_cons_of_mem _ hs')
    rw [expectedSamples_cons, collectSockets]
    cases herr : (s.SendCommand dec ⟨"bluestore allocator score block", ""⟩ (net k)).err with
    | some e =>
      have hs : sampleOf dec net (k, s) = none := by simp [sampleOf, ratingOf, herr]
      have ih := collectSockets_spec dec net rest (k + 1)
        { st with log := st.log ++ ["failed to get osd fragmentation status"] } hrest
      rw [hs]
      simpa using ih
    | none =>
      cases hv : (s.SendCommand dec ⟨"bluestore allocator score block", ""⟩
          (net k)).response.index "fragmentation_rating" with
      | float64 f =>
        have hs : sampleOf dec net (k, s) = some (f, .ok id) := by
          simp [sampleOf, ratingOf, herr, hv, hid]
        have hm : prometheus_MustNewConstMetric f id = .ok ⟨f, id⟩ := by
          simp [prometheus_MustNewConstMetric, hval]
        have ih := collectSockets_spec dec net rest (k + 1)
          { st with ch := st.ch ++ [⟨f, id⟩] } hrest
        rw [hs]
        simp only [hid, hm]
        simpa [Metric.toPair] using ih
      | nil =>
        have hs : sampleOf dec net (k, s) = none := by simp [sampleOf, ratingOf, herr, hv]
        have ih := collectSockets_spec dec net rest (k + 1)
          { st with log := st.log ++ ["failed to parse fragmentation rating"] } hrest
        rw [hs]
        simpa using ih
      | bool b =>
        have hs : sampleOf dec net (k, s) = none := by simp [sampleOf, ratingOf, herr, hv]
        have ih := collectSockets_spec dec net rest (k + 1)
          { st with log := st.log ++ ["failed to parse fragmentation rating"] } hrest
        rw [hs]
        simpa using ih
      | string b =>
        have hs : sampleOf dec net (k, s) = none := by simp [sampleOf, ratingOf, herr, hv]
        have ih := collectSockets_spec dec net rest (k + 1)
          { st with log := st.log ++ ["failed to parse fragmentation rating"] } hrest
        rw [hs]
        simpa using ih
      | slice b =>
        have hs : sampleOf dec net (k, s) = none := by simp [sampleOf, ratingOf, herr, hv]
        have ih := collectSockets_spec dec net rest (k + 1)
          { st with log := st.log ++ ["failed to parse fragmentation rating"] } hrest
        rw [hs]
        simpa using ih
      | map b =>
        have hs : sampleOf dec net (k, s) = none := by simp [sampleOf, ratingOf, herr, hv]
        have ih := collectSockets_spec dec net rest (k + 1)
          { st with log := st.log ++ ["failed to parse fragmentation rating"] } hrest
        rw [hs]
        simpa using ih

theorem filterMap_eraseIdx {α β : Type} (f : α → Option β) :
    (l : List α) → (k : Nat) → (x : α) → l.get? k = some x → f x = none →
      (l.eraseIdx k).filterMap f = l.filterMap f
  | [], _, _, h, _ => by simp at h
  | a :: as, 0, x, h, hx => by
    have : a = x := by simpa using h
    simp [List.filterMap_cons, this, hx]
  | a :: as, k + 1, x, h, hx => by
    have h2 : as.get? k = some x := by simpa using h
    simp [List.filterMap_cons, filterMap_eraseIdx f as k x h2 hx]

/-! # The claims -/

/-- C3: for every non-empty string of decimal digits `id` and every directory
component without a slash, `Osd` returns exactly `id` on the flat path
`/var/run/ceph/ceph-osd.<id>.asok` and on the nested path
`/var/run/ceph/<component>/ceph-osd.<id>.asok`; it is the second-to-last
segment of the whole path split on the dot. -/
theorem osd_returns_identifier (id component : String) (_hne : id ≠ "")
    (hdig : ∀ c ∈ id.data, c.isDigit = true) (_hcomp : '/' ∉ component.data) :
    AdminSocket.Osd ⟨"/var/run/ceph/ceph-osd." ++ id ++ ".asok"⟩ = .ok id ∧
    AdminSocket.Osd ⟨"/var/run/ceph/" ++ component ++ "/ceph-osd." ++ id ++ ".asok"⟩ = .ok id ∧
    (strings.Split ("/var/run/ceph/ceph-osd." ++ id ++ ".asok") '.').reverse.get? 1 = some id ∧
    (strings.Split ("/var/run/ceph/" ++ component ++ "/ceph-osd." ++ id ++ ".asok")
      '.').reverse.get? 1 = some id := by
  have hdot := not_dot_of_digits id hdig
  have h1 : ("/var/run/ceph/ceph-osd." ++ id ++ ".asok").data =
      "/var/run/ceph/ceph-osd".data ++ '.' :: (id.data ++ '.' :: ['a', 's', 'o', 'k']) := by
    simp [String.data_append]
  have h2 : ("/var/run/ceph/" ++ component ++ "/ceph-osd." ++ id ++ ".asok").data =
      ("/var/run/ceph/".data ++ component.data ++ "/ceph-osd".data) ++
        '.' :: (id.data ++ '.' :: ['a', 's', 'o', 'k']) := by
    simp [String.data_append]
  exact ⟨osd_of_data _ id _ h1 hdot, osd_of_data _ id _ h2 hdot,
    split_reverse_of_data _ id _ h1 hdot, split_reverse_of_data _ id _ h2 hdot⟩

/-- C3 at the identifier `123` below a cluster directory named by a UUID. -/
theorem osd_returns_identifier_witness :
    AdminSocket.Osd ⟨"/var/run/ceph/ceph-osd." ++ "123" ++ ".asok"⟩ = .ok "123" ∧
    AdminSocket.Osd ⟨"/var/run/ceph/" ++ "1d3e4c7b-6b3b-4b3b-8b3b-3b3b3b3b3b3b" ++
      "/ceph-osd." ++ "123" ++ ".asok"⟩ = .ok "123" ∧
    (strings.Split ("/var/run/ceph/ceph-osd." ++ "123" ++ ".asok") '.').reverse.get? 1 =
      some "123" ∧
    (strings.Split ("/var/run/ceph/" ++ "1d3e4c7b-6b3b-4b3b-8b3b-3b3b3b3b3b3b" ++
      "/ceph-osd." ++ "123" ++ ".asok") '.').reverse.get? 1 = some "123" :=
  osd_returns_identifier "123" "1d3e4c7b-6b3b-4b3b-8b3b-3b3b3b3b3b3b" (by decide) (by decide)
    (by decide)

/-- C4: on a well-formed tree below `/var/run/ceph` that is walked without
error and in which no directory has a matching name, `GetAllAdminSockets`
returns a path if and only if it is a file of the tree, at any depth, whose
base name starts with `ceph-osd.` and ends with `.asok`; every returned
socket appears exactly once. -/
theorem getAllAdminSockets_finds_exactly_the_sockets (fs : Node)
    (hwf : fs.WellFormed = true) (herr : fs.errors = [])
    (hfiles : ∀ e ∈ fs.entries "/var/run/ceph" "ceph",
      isSocketName e.2.Name = true → e.2.IsDir = false) :
    ∃ sockets, GetAllAdminSockets fs = .ok (sockets, none) ∧
      (∀ p : String, ⟨p⟩ ∈ sockets ↔
        ∃ info, (p, info) ∈ fs.entries "/var/run/ceph" "ceph" ∧ info.IsDir = false ∧
          strings.HasPrefix (baseName p) "ceph-osd." = true ∧
          strings.HasSuffix (baseName p) ".asok" = true) ∧
      (∀ s ∈ sockets, sockets.count s = 1) := by
  refine ⟨socketsOf (fs.entries "/var/run/ceph" "ceph"), ?_, ?_, ?_⟩
  · rw [getAll_ok fs herr, baseName_root]
  · intro p
    rw [mem_socketsOf]
    constructor
    · rintro ⟨e, he, hn, hp⟩
      have hpe : p = e.1 := by injection hp
      have hb := entries_baseName fs hwf e he
      have hn2 := hn
      simp only [isSocketName, Bool.and_eq_true] at hn2
      refine ⟨e.2, ?_, hfiles e he hn, ?_, ?_⟩
      · rw [hpe]
        exact he
      · rw [hpe, hb]
        exact hn2.1
      · rw [hpe, hb]
        exact hn2.2
    · rintro ⟨info, he, _, h1, h2⟩
      have hb := entries_baseName fs hwf (p, info) he
      simp only [] at hb
      refine ⟨(p, info), he, ?_, rfl⟩
      simp only [isSocketName, Bool.and_eq_true]
      rw [← hb]
      exact ⟨h1, h2⟩
  · intro s hs
    exact List.count_eq_one_of_mem
      (socketsOf_nodup _ (entries_nodup "/var/run/ceph" "ceph" fs hwf)) hs

/-- C4 on the sample tree: both sockets are found, the flat one and the
nested one, and nothing else. -/
theorem getAllAdminSockets_finds_exactly_the_sockets_witness :
    GetAllAdminSockets sampleTree =
        .ok ([⟨"/var/run/ceph/1d3e4c7b-6b3b-4b3b-8b3b-3b3b3b3b3b3b/ceph-osd.42.asok"⟩,
          ⟨"/var/run/ceph/ceph-osd.1.asok"⟩], none) ∧
      ∃ sockets, GetAllAdminSockets sampleTree = .ok (sockets, none) ∧
        (∀ p : String, ⟨p⟩ ∈ sockets ↔
          ∃ info, (p, info) ∈ sampleTree.entries "/var/run/ceph" "ceph" ∧ info.IsDir = false ∧
            strings.HasPrefix (baseName p) "ceph-osd." = true ∧
            strings.HasSuffix (baseName p) ".asok" = true) ∧
        (∀ s ∈ sockets, sockets.count s = 1) :=
  ⟨by rfl, getAllAdminSockets_finds_exactly_the_sockets sampleTree (by decide) (by decide)
    (by decide)⟩

/-- C6: when the walk meets a traversal error (a missing root included),
`GetAllAdminSockets` returns no socket and an error that wraps the first error
met, with the message `failed to scan admin sockets: ` followed by the message
of that error, also when sockets were visited before it. -/
theorem getAllAdminSockets_error_policy (fs : Node) (e : GoError)
    (h : fs.errors.head? = some e) :
    ∃ err, GetAllAdminSockets fs = .ok ([], some err) ∧ err.Unwrap = some e ∧
      err.Error = "failed to scan admin sockets: " ++ e.Error :=
  ⟨fmt_Errorf_w "failed to scan admin sockets: " e, getAll_err fs e h, rfl, rfl⟩

/-- C6 on a tree whose socket is visited before an unreadable entry, and on a
missing root. -/
theorem getAllAdminSockets_error_policy_witness :
    socketsOf (unreadableTree.entries "/var/run/ceph" "ceph") =
        [⟨"/var/run/ceph/ceph-osd.1.asok"⟩] ∧
      (∃ err, GetAllAdminSockets unreadableTree = .ok ([], some err) ∧
        err.Unwrap = some (.errno "lstat /var/run/ceph/lost+found: permission denied") ∧
        err.Error = "failed to scan admin sockets: " ++
          (GoError.errno "lstat /var/run/ceph/lost+found: permission denied").Error) ∧
      (∃ err, GetAllAdminSockets (.lstatErr (.errno "no such file or directory")) =
          .ok ([], some err) ∧
        err.Unwrap = some (.errno "no such file or directory") ∧
        err.Error = "failed to scan admin sockets: " ++
          (GoError.errno "no such file or directory").Error) :=
  ⟨by decide, getAllAdminSockets_error_policy unreadableTree _ (by decide),
    getAllAdminSockets_error_policy (.lstatErr (.errno "no such file or directory")) _
      (by decide)⟩

/-- C9, as stated, fails: a directory named `ceph-osd.1.asok` is returned by
`GetAllAdminSockets`, and it is not a regular file. -/
theorem getAllAdminSockets_returns_directory :
    GetAllAdminSockets directoryTree = .ok ([⟨"/var/run/ceph/ceph-osd.1.asok"⟩], none) ∧
      directoryTree.entries "/var/run/ceph" "ceph" =
        [("/var/run/ceph", ⟨"ceph", true, false⟩),
         ("/var/run/ceph/ceph-osd.1.asok", ⟨"ceph-osd.1.asok", true, false⟩)] :=
  ⟨by rfl, by decide⟩

/-- C9, amended: every path that `GetAllAdminSockets` returns is an entry of
the tree whose name starts with `ceph-osd.` and ends with `.asok`, whatever
its type; and when the walk meets no error, every such entry is returned, be
it a regular file, a directory or another kind of entry. -/
theorem getAllAdminSockets_returns_matching_entries (fs : Node)
    (sockets : List AdminSocket) (err : Option GoError)
    (h : GetAllAdminSockets fs = .ok (sockets, err)) :
    (∀ s ∈ sockets, ∃ info, (s.Path, info) ∈ fs.entries "/var/run/ceph" "ceph" ∧
      strings.HasPrefix info.Name "ceph-osd." = true ∧
      strings.HasSuffix info.Name ".asok" = true) ∧
    (err = none → ∀ e ∈ fs.entries "/var/run/ceph" "ceph",
      strings.HasPrefix e.2.Name "ceph-osd." = true →
      strings.HasSuffix e.2.Name ".asok" = true → ⟨e.1⟩ ∈ sockets) := by
  rcases getAll_cases fs sockets err h with ⟨_, _, hsock⟩ | ⟨e, _, hsock, herr⟩
  · rw [baseName_root] at hsock
    constructor
    · intro s hs
      rw [hsock, mem_socketsOf] at hs
      obtain ⟨e, he, hn, rfl⟩ := hs
      simp only [isSocketName, Bool.and_eq_true] at hn
      exact ⟨e.2, he, hn.1, hn.2⟩
    · intro _ e he h1 h2
      rw [hsock, mem_socketsOf]
      exact ⟨e, he, by simp [isSocketName, h1, h2], rfl⟩
  · constructor
    · intro s hs
      rw [hsock] at hs
      simp at hs
    · intro hnone
      rw [herr] at hnone
      simp at hnone

/-- C9, amended, on the tree whose only entry is a directory with the name of
a socket. -/
theorem getAllAdminSockets_returns_matching_entries_witness :
    GetAllAdminSockets directoryTree = .ok ([⟨"/var/run/ceph/ceph-osd.1.asok"⟩], none) ∧
    (∀ s ∈ [(⟨"/var/run/ceph/ceph-osd.1.asok"⟩ : AdminSocket)],
      ∃ info, (s.Path, info) ∈ directoryTree.entries "/var/run/ceph" "ceph" ∧
      strings.HasPrefix info.Name "ceph-osd." = true ∧
      strings.HasSuffix info.Name ".asok" = true) ∧
    ((none : Option GoError) = none → ∀ e ∈ directoryTree.entries "/var/run/ceph" "ceph",
      strings.HasPrefix e.2.Name "ceph-osd." = true →
      strings.HasSuffix e.2.Name ".asok" = true →
      ⟨e.1⟩ ∈ [(⟨"/var/run/ceph/ceph-osd.1.asok"⟩ : AdminSocket)]) :=
  ⟨by rfl, getAllAdminSockets_returns_matching_entries directoryTree _ none (by rfl)⟩

/-- C10: a path whose base name starts with `ceph-osd.` and ends with `.asok`
splits on the dot into at least two segments, so the index `len(parts)-2` of
`Osd` is in range and `Osd` returns a value; this holds for every socket that
`GetAllAdminSockets` returns; a path without a dot makes the index -1 and
`Osd` panics. -/
theorem osd_in_range_on_socket_names (path : String)
    (hpre : strings.HasPrefix (baseName path) "ceph-osd." = true)
    (_hsuf : strings.HasSuffix (baseName path) ".asok" = true) :
    2 ≤ (strings.Split path '.').length ∧
    (∃ id, AdminSocket.Osd ⟨path⟩ = .ok id) ∧
    (∀ (fs : Node) (sockets : List AdminSocket) (err : Option GoError),
      GetAllAdminSockets fs = .ok (sockets, err) → ∀ s ∈ sockets, ∃ id, s.Osd = .ok id) ∧
    (∀ other : String, '.' ∉ other.data →
      ((strings.Split other '.').length : Int) - 2 = -1 ∧
      AdminSocket.Osd ⟨other⟩ = .error (.indexOutOfRange (-1) 1)) := by
  have hne : baseName path ≠ "." ∧ baseName path ≠ "/" := by
    constructor
    · intro e
      rw [e] at hpre
      exact absurd hpre (by decide)
    · intro e
      rw [e] at hpre
      exact absurd hpre (by decide)
  have hdot : '.' ∈ path.data :=
    baseName_subset path '.' (dot_mem_of_isSocketName _ hpre) hne
  refine ⟨(osd_of_mem_dot path hdot).1, (osd_of_mem_dot path hdot).2, ?_, ?_⟩
  · intro fs sockets err h s hs
    exact (osd_of_mem_dot s.Path (discovered_dot fs sockets err h s hs)).2
  · intro other ho
    have := osd_of_not_mem_dot other ho
    refine ⟨?_, this.2⟩
    rw [this.1]
    rfl

/-- C10 on the path of a nested socket. -/
theorem osd_in_range_on_socket_names_witness :
    strings.HasPrefix (baseName "/var/run/ceph/fsid/ceph-osd.42.asok") "ceph-osd." = true ∧
    2 ≤ (strings.Split "/var/run/ceph/fsid/ceph-osd.42.asok" '.').length ∧
    (∃ id, AdminSocket.Osd ⟨"/var/run/ceph/fsid/ceph-osd.42.asok"⟩ = .ok id) ∧
    (∀ (fs : Node) (sockets : List AdminSocket) (err : Option GoError),
      GetAllAdminSockets fs = .ok (sockets, err) → ∀ s ∈ sockets, ∃ id, s.Osd = .ok id) ∧
    (∀ other : String, '.' ∉ other.data →
      ((strings.Split other '.').length : Int) - 2 = -1 ∧
      AdminSocket.Osd ⟨other⟩ = .error (.indexOutOfRange (-1) 1)) :=
  ⟨by decide, osd_in_range_on_socket_names "/var/run/ceph/fsid/ceph-osd.42.asok" (by decide)
    (by decide)⟩

/-- C2: when the connection and the write succeed and the daemon replies with
the four-byte big-endian length of the body of a JSON object (below 2^32) and
then with the whole body, `SendCommand` returns no error and the map that the
body decodes to; the length it reads from the header bytes `b0 b1 b2 b3` is
`b0*2^24 + b1*2^16 + b2*2^8 + b3`, which is the length of the body for the
header that `PutUint32` writes. -/
theorem sendCommand_round_trip (dec : ObjectDecoder) (as : AdminSocket)
    (command : AdminSocketCommand) (peer : Peer) (body : List Nat)
    (obj : List (String × GoValue))
    (hlen : body.length < 2 ^ 32)
    (hvalid : checkValid body = true) (hkind : topLevelKind body = .object)
    (hdec : dec body = .ok obj)
    (hdial : peer.dial as.Path = none)
    (hwrite : ∀ bytes, peer.write bytes = none)
    (hheader : peer.read 0 4 = ⟨binary_BigEndian_PutUint32 body.length, none⟩)
    (hbody : peer.read 1 body.length = ⟨body, none⟩) :
    (as.SendCommand dec command peer).err = none ∧
    (as.SendCommand dec command peer).response = some obj ∧
    binary_BigEndian_Uint32 (fillBuffer (List.replicate 4 0) (peer.read 0 4).data) =
      body.length ∧
    (∀ b0 b1 b2 b3 : Nat, b0 < 256 → b1 < 256 → b2 < 256 → b3 < 256 →
      binary_BigEndian_Uint32 [b0, b1, b2, b3] =
        b0 * 2 ^ 24 + b1 * 2 ^ 16 + b2 * 2 ^ 8 + b3) := by
  obtain ⟨commandBytes, hm, _⟩ := json_Marshal_ok command
  have hres := sendCommand_of_reply dec as command peer commandBytes body hlen hm hdial
    (hwrite _) hheader hbody
  rw [json_Unmarshal_object dec body obj hvalid hkind hdec] at hres
  simp only [] at hres
  refine ⟨by rw [hres], by rw [hres], ?_, uint32_of_bytes⟩
  rw [hheader, fillBuffer_header, uint32_putUint32 _ hlen]

/-- C2 on the exchange of the test suite: the response
`{"fragmentation_rating":0.6228889132001627}` comes back as a map. -/
theorem sendCommand_round_trip_witness :
    testBody.length = 43 ∧
    ((⟨"/tmp/test-ceph-osd.1.asok"⟩ : AdminSocket).SendCommand testDecoder
      ⟨"bluestore allocator score block", ""⟩ (replyingPeer testBody)).err = none ∧
    ((⟨"/tmp/test-ceph-osd.1.asok"⟩ : AdminSocket).SendCommand testDecoder
      ⟨"bluestore allocator score block", ""⟩ (replyingPeer testBody)).response =
        some [("fragmentation_rating", .float64 testRating)] ∧
    binary_BigEndian_Uint32
      (fillBuffer (List.replicate 4 0) ((replyingPeer testBody).read 0 4).data) =
        testBody.length ∧
    (∀ b0 b1 b2 b3 : Nat, b0 < 256 → b1 < 256 → b2 < 256 → b3 < 256 →
      binary_BigEndian_Uint32 [b0, b1, b2, b3] =
        b0 * 2 ^ 24 + b1 * 2 ^ 16 + b2 * 2 ^ 8 + b3) :=
  ⟨by decide, sendCommand_round_trip testDecoder ⟨"/tmp/test-ceph-osd.1.asok"⟩
    ⟨"bluestore allocator score block", ""⟩ (replyingPeer testBody) testBody
    [("fragmentation_rating", .float64 testRating)]
    (by decide) (by decide) (by decide) (by simp [testDecoder]) rfl (fun _ => rfl) rfl rfl⟩

/-- C5: once the connection is open, the bytes that `SendCommand` writes are
the JSON serialization of the command followed by one zero byte, in a single
write and with nothing before it; the serialization is the object with the key
`prefix` alone when `Format` is empty, and with `prefix` and `format`
otherwise. For the command `bluestore allocator score block` the request is
`{"prefix":"bluestore allocator score block"}` and the zero byte. -/
theorem sendCommand_request_framing (dec : ObjectDecoder) (as : AdminSocket)
    (command : AdminSocketCommand) (peer : Peer) (hdial : peer.dial as.Path = none) :
    (as.SendCommand dec command peer).written =
      [ascii "\x7b\"prefix\":" ++ appendString command.Prefix ++
        (if command.Format = "" then []
          else ascii ",\"format\":" ++ appendString command.Format) ++ ascii "\x7d" ++ [0]] ∧
    (as.SendCommand dec ⟨"bluestore allocator score block", ""⟩ peer).written =
      [ascii "\x7b\"prefix\":\"bluestore allocator score block\"\x7d" ++ [0]] := by
  constructor
  · exact sendCommand_written dec as command peer _ rfl hdial
  · rw [sendCommand_written dec as ⟨"bluestore allocator score block", ""⟩ peer _ rfl hdial]
    decide

/-- C5 on a command with a format, sent to a daemon that replies. -/
theorem sendCommand_request_framing_witness :
    ((⟨"/var/run/ceph/ceph-osd.1.asok"⟩ : AdminSocket).SendCommand testDecoder
      ⟨"perf dump", "json"⟩ (replyingPeer testBody)).written =
      [ascii "\x7b\"prefix\":\"perf dump\",\"format\":\"json\"\x7d" ++ [0]] ∧
    ((⟨"/var/run/ceph/ceph-osd.1.asok"⟩ : AdminSocket).SendCommand testDecoder
      ⟨"perf dump", "json"⟩ (replyingPeer testBody)).written =
      [ascii "\x7b\"prefix\":" ++ appendString "perf dump" ++
        (if ("json" : String) = "" then []
          else ascii ",\"format\":" ++ appendString "json") ++ ascii "\x7d" ++ [0]] ∧
    ((⟨"/var/run/ceph/ceph-osd.1.asok"⟩ : AdminSocket).SendCommand testDecoder
      ⟨"bluestore allocator score block", ""⟩ (replyingPeer testBody)).written =
      [ascii "\x7b\"prefix\":\"bluestore allocator score block\"\x7d" ++ [0]] :=
  ⟨by decide, sendCommand_request_framing testDecoder ⟨"/var/run/ceph/ceph-osd.1.asok"⟩
    ⟨"perf dump", "json"⟩ (replyingPeer testBody) rfl⟩

/-- C7: when the header announces `L > 0` bytes and the read of the body
delivers fewer than `L` bytes without an I/O error, `SendCommand` returns an
error and no response map: the rest of the buffer is zero bytes, which no JSON
text holds, so decoding fails with a syntax error. -/
theorem sendCommand_short_body_read (dec : ObjectDecoder) (as : AdminSocket)
    (command : AdminSocketCommand) (peer : Peer) (L : Nat)
    (hdial : peer.dial as.Path = none)
    (hwrite : ∀ bytes, peer.write bytes = none)
    (hheader : (peer.read 0 4).err = none)
    (hL : binary_BigEndian_Uint32 (fillBuffer (List.replicate 4 0) (peer.read 0 4).data) = L)
    (_hpos : 0 < L)
    (hbody : (peer.read 1 L).err = none)
    (hshort : (peer.read 1 L).data.length < L) :
    (as.SendCommand dec command peer).err = some .jsonSyntax ∧
    (as.SendCommand dec command peer).response = none := by
  obtain ⟨commandBytes, hm, _⟩ := json_Marshal_ok command
  have hz := json_Unmarshal_zero dec _ (fillBuffer_short (peer.read 1 L).data L hshort)
  unfold AdminSocket.SendCommand
  simp only [hdial, hm, hwrite, hheader, hL, hbody, hz]
  exact ⟨trivial, trivial⟩

/-- C7 on a daemon that announces the 43 bytes of the test response and
delivers the first 20. -/
theorem sendCommand_short_body_read_witness :
    (shortPeer 43 (testBody.take 20)).read 1 43 = ⟨testBody.take 20, none⟩ ∧
    ((⟨"/var/run/ceph/ceph-osd.1.asok"⟩ : AdminSocket).SendCommand testDecoder
      ⟨"bluestore allocator score block", ""⟩ (shortPeer 43 (testBody.take 20))).err =
        some .jsonSyntax ∧
    ((⟨"/var/run/ceph/ceph-osd.1.asok"⟩ : AdminSocket).SendCommand testDecoder
      ⟨"bluestore allocator score block", ""⟩ (shortPeer 43 (testBody.take 20))).response =
        none :=
  ⟨rfl, sendCommand_short_body_read testDecoder ⟨"/var/run/ceph/ceph-osd.1.asok"⟩
    ⟨"bluestore allocator score block", ""⟩ (shortPeer 43 (testBody.take 20)) 43
    rfl (fun _ => rfl) rfl (by decide) (by decide) rfl (by decide)⟩

/-- C8, as stated, fails: the body `null` is valid JSON whose top-level value
is not an object, and `SendCommand` returns no error for it (and a nil map). -/
theorem sendCommand_null_without_error :
    checkValid (ascii "null") = true ∧ topLevelKind (ascii "null") = .null ∧
    ((⟨"/var/run/ceph/ceph-osd.1.asok"⟩ : AdminSocket).SendCommand testDecoder
      ⟨"bluestore allocator score block", ""⟩ (replyingPeer (ascii "null"))).err = none ∧
    ((⟨"/var/run/ceph/ceph-osd.1.asok"⟩ : AdminSocket).SendCommand testDecoder
      ⟨"bluestore allocator score block", ""⟩ (replyingPeer (ascii "null"))).response =
        none := by
  refine ⟨by decide, by decide, ?_, ?_⟩ <;>
  · rw [sendCommand_of_reply testDecoder _ _ (replyingPeer (ascii "null")) _ (ascii "null")
      (by decide) rfl rfl rfl rfl rfl]
    rfl

/-- C8, amended: for a response body that is valid JSON and whose top-level
value is an array, a string, a number or a boolean, `SendCommand` returns an
`UnmarshalTypeError` and no response map; for the body `null` it returns no
error and the nil map. -/
theorem sendCommand_non_object (dec : ObjectDecoder) (as : AdminSocket)
    (command : AdminSocketCommand) (peer : Peer) (body : List Nat)
    (hlen : body.length < 2 ^ 32)
    (hvalid : checkValid body = true) (hkind : topLevelKind body ≠ .object)
    (hdial : peer.dial as.Path = none)
    (hwrite : ∀ bytes, peer.write bytes = none)
    (hheader : peer.read 0 4 = ⟨binary_BigEndian_PutUint32 body.length, none⟩)
    (hbody : peer.read 1 body.length = ⟨body, none⟩) :
    (as.SendCommand dec command peer).response = none ∧
    (topLevelKind body = .null → (as.SendCommand dec command peer).err = none) ∧
    (topLevelKind body ≠ .null →
      ∃ value, (as.SendCommand dec command peer).err = some (.jsonUnmarshalType value) ∧
        (value = "array" ∨ value = "string" ∨ value = "number" ∨ value = "bool")) := by
  obtain ⟨commandBytes, hm, _⟩ := json_Marshal_ok command
  have hres := sendCommand_of_reply dec as command peer commandBytes body hlen hm hdial
    (hwrite _) hheader hbody
  rw [hres]
  unfold json_Unmarshal
  rw [if_pos hvalid]
  cases hk : topLevelKind body
  case object => exact absurd hk hkind
  all_goals simp

/-- C8, amended, on the body `[1,2]`. -/
theorem sendCommand_non_object_witness :
    checkValid (ascii "[1,2]") = true ∧
    ((⟨"/var/run/ceph/ceph-osd.1.asok"⟩ : AdminSocket).SendCommand testDecoder
      ⟨"bluestore allocator score block", ""⟩ (replyingPeer (ascii "[1,2]"))).response =
        none ∧
    (topLevelKind (ascii "[1,2]") = .null →
      ((⟨"/var/run/ceph/ceph-osd.1.asok"⟩ : AdminSocket).SendCommand testDecoder
        ⟨"bluestore allocator score block", ""⟩ (replyingPeer (ascii "[1,2]"))).err = none) ∧
    (topLevelKind (ascii "[1,2]") ≠ .null →
      ∃ value, ((⟨"/var/run/ceph/ceph-osd.1.asok"⟩ : AdminSocket).SendCommand testDecoder
        ⟨"bluestore allocator score block", ""⟩ (replyingPeer (ascii "[1,2]"))).err =
          some (.jsonUnmarshalType value) ∧
        (value = "array" ∨ value = "string" ∨ value = "number" ∨ value = "bool")) :=
  ⟨by decide, sendCommand_non_object testDecoder ⟨"/var/run/ceph/ceph-osd.1.asok"⟩
    ⟨"bluestore allocator score block", ""⟩ (replyingPeer (ascii "[1,2]")) (ascii "[1,2]")
    (by decide) (by decide) (by decide) rfl (fun _ => rfl) rfl rfl⟩

/-- Isolation when the identifiers are valid UTF-8: for the sockets that
discovery returns and every behaviour of the network, `Collect` sends exactly,
in the order of discovery, one sample (the value under `fragmentation_rating`,
labelled with `Osd` of the socket) for each socket whose `SendCommand`
succeeded with a `float64` under that key, and none for any other socket; it
does not panic. A socket whose call fails, or whose response lacks the key or
holds another kind of value under it, yields no sample and leaves the samples
of the other sockets as they are. -/
theorem collect_isolation_of_valid_labels (fs : Node) (dec : ObjectDecoder)
    (net : Nat → Peer) (sockets : List AdminSocket)
    (h : GetAllAdminSockets fs = .ok (sockets, none))
    (hvalid : ∀ s ∈ sockets, ∀ id, s.Osd = .ok id → utf8_ValidString id = true) :
    (Collect fs dec net).panic = none ∧
    (Collect fs dec net).ch.map Metric.toPair = expectedSamples dec net 0 sockets ∧
    (∀ (k : Nat) (s : AdminSocket), sockets.get? k = some s →
      ratingOf (s.SendCommand dec ⟨"bluestore allocator score block", ""⟩ (net k)) = none →
      (Collect fs dec net).ch.map Metric.toPair =
        ((sockets.enumFrom 0).eraseIdx k).filterMap (sampleOf dec net)) ∧
    (∀ r : SendResult,
      (r.err ≠ none ∨ ∀ f, r.response.index "fragmentation_rating" ≠ .float64 f) →
      ratingOf r = none) := by
  have hosd : ∀ s ∈ sockets, ∃ id, s.Osd = .ok id ∧ utf8_ValidString id = true :=
    fun s hs => by
      obtain ⟨id, hid⟩ := (osd_of_mem_dot s.Path (discovered_dot fs sockets none h s hs)).2
      exact ⟨id, hid, hvalid s hs id hid⟩
  have hspec := collectSockets_spec dec net sockets 0 ⟨[], [], none⟩ hosd
  have hc : Collect fs dec net = collectSockets dec net 0 sockets ⟨[], [], none⟩ := by
    unfold Collect
    rw [h]
  rw [hc]
  refine ⟨hspec.1, by simpa using hspec.2, ?_, ratingOf_eq_none⟩
  intro k s hk hr
  have hget : (sockets.enumFrom 0).get? k = some (k, s) := by
    rw [List.get?_eq_getElem?] at hk ⊢
    rw [List.getElem?_enumFrom, hk]
    simp
  rw [filterMap_eraseIdx (sampleOf dec net) _ k (k, s) hget (by simp [sampleOf, hr])]
  simpa [expectedSamples] using hspec.2

/-- Isolation on the sample tree, when nobody listens on the first socket
found and the second daemon replies: the scrape sends the sample of the second
socket. -/
theorem collect_isolation_of_valid_labels_witness :
    (Collect sampleTree testDecoder sampleNet).ch = [⟨testRating, "1"⟩] ∧
    (Collect sampleTree testDecoder sampleNet).panic = none ∧
    (Collect sampleTree testDecoder sampleNet).ch.map Metric.toPair =
      expectedSamples testDecoder sampleNet 0
        [⟨"/var/run/ceph/1d3e4c7b-6b3b-4b3b-8b3b-3b3b3b3b3b3b/ceph-osd.42.asok"⟩,
          ⟨"/var/run/ceph/ceph-osd.1.asok"⟩] ∧
    (∀ (k : Nat) (s : AdminSocket),
      [(⟨"/var/run/ceph/1d3e4c7b-6b3b-4b3b-8b3b-3b3b3b3b3b3b/ceph-osd.42.asok"⟩ : AdminSocket),
        ⟨"/var/run/ceph/ceph-osd.1.asok"⟩].get? k = some s →
      ratingOf (s.SendCommand testDecoder ⟨"bluestore allocator score block", ""⟩
        (sampleNet k)) = none →
      (Collect sampleTree testDecoder sampleNet).ch.map Metric.toPair =
        (([(⟨"/var/run/ceph/1d3e4c7b-6b3b-4b3b-8b3b-3b3b3b3b3b3b/ceph-osd.42.asok"⟩ :
            AdminSocket), ⟨"/var/run/ceph/ceph-osd.1.asok"⟩].enumFrom 0).eraseIdx
          k).filterMap (sampleOf testDecoder sampleNet)) ∧
    (∀ r : SendResult,
      (r.err ≠ none ∨ ∀ f, r.response.index "fragmentation_rating" ≠ .float64 f) →
      ratingOf r = none) :=
  ⟨by decide, collect_isolation_of_valid_labels sampleTree testDecoder sampleNet _ (by rfl)
    (by
      intro s hs id hid
      rcases List.mem_cons.mp hs with rfl | hs
      · have h42 : AdminSocket.Osd
            ⟨"/var/run/ceph/1d3e4c7b-6b3b-4b3b-8b3b-3b3b3b3b3b3b/ceph-osd.42.asok"⟩ =
            .ok "42" := by rfl
        rw [h42] at hid
        injection hid with hid
        rw [← hid]
        decide
      · rcases List.mem_cons.mp hs with rfl | hs
        · have h1 : AdminSocket.Osd ⟨"/var/run/ceph/ceph-osd.1.asok"⟩ = .ok "1" := by rfl
          rw [h1] at hid
          injection hid with hid
          rw [← hid]
          decide
        · simp at hs)⟩

/-- C1 fails on the code: on a tree of three sockets whose daemons all reply
with a rating, where the identifier of the second socket is the byte 0xFF,
`Collect` sends the sample of the first socket, then
`prometheus.MustNewConstMetric` panics on the label of the second, which is
not valid UTF-8; the scrape ends there and the third socket yields no sample. -/
theorem collect_panics_on_invalid_label :
    GetAllAdminSockets invalidLabelTree =
      .ok ([⟨"/var/run/ceph/1d3e4c7b-6b3b-4b3b-8b3b-3b3b3b3b3b3b/ceph-osd.42.asok"⟩,
        ⟨"/var/run/ceph/ceph-osd.\xff.asok"⟩,
        ⟨"/var/run/ceph/fsid/ceph-osd.7.asok"⟩], none) ∧
    (∀ s ∈ [(⟨"/var/run/ceph/1d3e4c7b-6b3b-4b3b-8b3b-3b3b3b3b3b3b/ceph-osd.42.asok"⟩ :
          AdminSocket),
        ⟨"/var/run/ceph/ceph-osd.\xff.asok"⟩,
        ⟨"/var/run/ceph/fsid/ceph-osd.7.asok"⟩],
      ratingOf (s.SendCommand testDecoder ⟨"bluestore allocator score block", ""⟩
        (replyingPeer testBody)) = some testRating) ∧
    AdminSocket.Osd ⟨"/var/run/ceph/ceph-osd.\xff.asok"⟩ = .ok "\xff" ∧
    bytesOf "\xff" = [255] ∧
    utf8_ValidString "\xff" = false ∧
    AdminSocket.Osd ⟨"/var/run/ceph/fsid/ceph-osd.7.asok"⟩ = .ok "7" ∧
    utf8_ValidString "7" = true ∧
    Collect invalidLabelTree testDecoder replyingNet =
      ⟨[⟨testRating, "42"⟩], [], some (.invalidLabelValue "\xff")⟩ :=
  ⟨by rfl, by decide, by rfl, by decide, by decide, by rfl, by decide, by decide⟩

end CephOsdExporter
